import Mathlib

/-!
Verification development for the blackmail email library: the MIME message
assembly engine (part model, header set, message builder, transfer-encoding
codecs) and the SMTP client protocol state machine, shallowly embedded from
the Go source.  Byte strings are modelled as `List Char`, one `Char` per
byte; the injectable clock/random/boundary sources of the source (`now`,
`testRandom`, `testBoundary`) become explicit parameters.
-/

namespace Blackmail

/-- Byte strings: one `Char` per byte. -/
abbrev Str := List Char

/-- The bytes of a Lean string literal, used to write `Str` constants. -/
def str (s : String) : Str := s.data

/-- The CRLF line terminator. -/
def crlf : Str := str "\r\n"

/-! ### Base64 (Go `encoding/base64` `StdEncoding`, used by `wrappedBase64`) -/

/-- The standard base64 alphabet. -/
def b64Alphabet : Str :=
  str "ABCDEFGHIJKLMNOPQRSTUVWXYZabcdefghijklmnopqrstuvwxyz0123456789+/"

/-- The base64 digit for a 6-bit value. -/
def b64Char (n : Nat) : Char := b64Alphabet.getD n 'A'

/-- `base64.StdEncoding.EncodedLen`: padded encoded length for `n` input bytes. -/
def encodedLen (n : Nat) : Nat := (n + 2) / 3 * 4

/-- `base64.StdEncoding.Encode`: standard base64 with `=` padding, 3 input
bytes per 4 output characters. -/
def b64EncodeBytes : List Nat → Str
  | [] => []
  | [a] => [b64Char (a / 4), b64Char (a % 4 * 16), '=', '=']
  | [a, b] => [b64Char (a / 4), b64Char (a % 4 * 16 + b / 16), b64Char (b % 16 * 4), '=']
  | a :: b :: c :: rest =>
      b64Char (a / 4) :: b64Char (a % 4 * 16 + b / 16) ::
      b64Char (b % 16 * 4 + c / 64) :: b64Char (c % 64) :: b64EncodeBytes rest

theorem b64EncodeBytes_length (bs : List Nat) :
    (b64EncodeBytes bs).length = encodedLen bs.length := by
  induction bs using b64EncodeBytes.induct with
  | case1 => simp [b64EncodeBytes, encodedLen]
  | case2 a => simp [b64EncodeBytes, encodedLen]
  | case3 a b => simp [b64EncodeBytes, encodedLen]
  | case4 a b c rest ih =>
      simp only [b64EncodeBytes, List.length_cons, encodedLen] at *
      omega

/-! ### The wrapped base64 encoder (`wrappedBase64.Write`, part_001 lines 59-75)

The Go `Write` encodes the input in 57-byte chunks, emitting each chunk's
base64 encoding followed by CRLF, and returns
`base64.StdEncoding.EncodedLen(len(p))` for the final remainder `p`
(`len(input) mod 57`), with a `nil` error.  The model returns the pair
(bytes written to the underlying writer, returned count). -/

def wrappedWriteGo (p : List Nat) : Str × Nat :=
  if _h : 57 ≤ p.length then
    let rest := wrappedWriteGo (p.drop 57)
    (b64EncodeBytes (p.take 57) ++ crlf ++ rest.1, rest.2)
  else
    ((if p = [] then [] else b64EncodeBytes p ++ crlf), encodedLen p.length)
termination_by p.length
decreasing_by simp only [List.length_drop]; omega

/-- The 57-byte input chunking performed by `wrappedBase64.Write`. -/
def wrappedChunks (p : List Nat) : List (List Nat) :=
  if _h : 57 ≤ p.length then p.take 57 :: wrappedChunks (p.drop 57)
  else if p = [] then [] else [p]
termination_by p.length
decreasing_by simp only [List.length_drop]; omega

theorem wrappedWriteGo_eq_chunks (p : List Nat) :
    (wrappedWriteGo p).1 =
      ((wrappedChunks p).map (fun c => b64EncodeBytes c ++ crlf)).flatten := by
  induction p using wrappedWriteGo.induct with
  | case1 p h ih =>
      rw [wrappedWriteGo, wrappedChunks]
      simp only [dif_pos h, List.map_cons, List.flatten_cons]
      rw [ih]
  | case2 p h =>
      rw [wrappedWriteGo, wrappedChunks]
      simp only [dif_neg h]
      by_cases hp : p = [] <;> simp [hp]

theorem wrappedChunks_mem_length {p : List Nat} {c : List Nat}
    (hc : c ∈ wrappedChunks p) : c.length ≤ 57 ∧ c ≠ [] := by
  induction p using wrappedChunks.induct with
  | case1 p h ih =>
      rw [wrappedChunks] at hc
      simp only [dif_pos h, List.mem_cons] at hc
      rcases hc with hc | hc
      · subst hc
        constructor
        · rw [List.length_take]; omega
        · intro he
          have h2 : (List.take 57 p).length = 0 := by rw [he]; rfl
          rw [List.length_take] at h2
          omega
      · exact ih hc
  | case2 h =>
      rw [wrappedChunks] at hc
      simp at hc
  | case3 p h hp =>
      rw [wrappedChunks] at hc
      simp only [dif_neg h] at hc
      simp [hp] at hc
      subst hc
      exact ⟨by omega, hp⟩

theorem wrappedChunks_dropLast_length {p : List Nat} {c : List Nat}
    (hc : c ∈ (wrappedChunks p).dropLast) : c.length = 57 := by
  induction p using wrappedChunks.induct with
  | case1 p h ih =>
      rw [wrappedChunks] at hc
      simp only [dif_pos h] at hc
      rcases hr : wrappedChunks (p.drop 57) with _ | ⟨d, ds⟩
      · rw [hr] at hc; simp at hc
      · rw [hr] at hc
        rw [List.dropLast_cons_of_ne_nil (by simp)] at hc
        rcases List.mem_cons.mp hc with hc | hc
        · subst hc; rw [List.length_take]; omega
        · exact ih (by rw [hr]; exact hc)
  | case2 h =>
      rw [wrappedChunks] at hc
      simp at hc
  | case3 p h hp =>
      rw [wrappedChunks] at hc
      simp only [dif_neg h] at hc
      simp [hp] at hc

theorem wrappedWriteGo_count (p : List Nat) :
    (wrappedWriteGo p).2 = encodedLen (p.length % 57) := by
  induction p using wrappedWriteGo.induct with
  | case1 p h ih =>
      rw [wrappedWriteGo]
      simp only [dif_pos h]
      rw [ih]
      congr 1
      simp only [List.length_drop]
      omega
  | case2 p h =>
      rw [wrappedWriteGo]
      simp only [dif_neg h]
      congr 1
      omega

theorem wrappedChunks_ne_nil {p : List Nat} (hp : p ≠ []) : wrappedChunks p ≠ [] := by
  rw [wrappedChunks]
  by_cases h : 57 ≤ p.length
  · simp [dif_pos h]
  · simp [dif_neg h, hp]

/-- C7 (amended): the output of one `wrappedBase64.Write` call is the
concatenation, over the consecutive 57-byte input chunks, of each chunk's
standard base64 encoding followed by CRLF; every chunk but the last encodes
to exactly 76 characters, and the last (possibly partial) chunk encodes to
at most 76 characters (not padded to the 76-column width, but reaching
exactly 76 when the remainder is 55 or 56 bytes). -/
theorem C7_base64_lines (p : List Nat) :
    (wrappedWriteGo p).1 =
      ((wrappedChunks p).map (fun c => b64EncodeBytes c ++ crlf)).flatten ∧
    (∀ c ∈ (wrappedChunks p).dropLast, (b64EncodeBytes c).length = 76) ∧
    (∀ c ∈ wrappedChunks p, (b64EncodeBytes c).length ≤ 76 ∧ c ≠ []) := by
  refine ⟨wrappedWriteGo_eq_chunks p, ?_, ?_⟩
  · intro c hc
    rw [b64EncodeBytes_length, wrappedChunks_dropLast_length hc]
    rfl
  · intro c hc
    obtain ⟨h1, h2⟩ := wrappedChunks_mem_length hc
    rw [b64EncodeBytes_length]
    refine ⟨?_, h2⟩
    unfold encodedLen
    omega

/-- C7 counterexample: for a 55-byte input the single (final, partial) chunk
is encoded to a line of exactly 76 characters, not to a shorter line as the
claim states. -/
theorem C7_counterexample :
    wrappedChunks (List.replicate 55 0) = [List.replicate 55 0] ∧
    (List.replicate (55:Nat) (0:Nat)).length < 57 ∧
    ¬ (b64EncodeBytes (List.replicate 55 0)).length < 76 ∧
    (wrappedWriteGo (List.replicate 55 0)).1 =
      b64EncodeBytes (List.replicate 55 0) ++ crlf := by
  refine ⟨?_, by simp, ?_, ?_⟩
  · rw [wrappedChunks]
    norm_num
  · rw [b64EncodeBytes_length]
    simp [encodedLen]
  · rw [wrappedWriteGo]
    norm_num

/-- Witness for C7 at a 60-byte input: one full chunk of 57 bytes encoded to
76 characters and a final 3-byte chunk. -/
theorem C7_base64_lines_witness :
    ((wrappedWriteGo (List.replicate 60 0)).1 =
      ((wrappedChunks (List.replicate 60 0)).map (fun c => b64EncodeBytes c ++ crlf)).flatten) ∧
    (List.replicate 57 0 ∈ (wrappedChunks (List.replicate 60 0)).dropLast ∧
     (b64EncodeBytes (List.replicate 57 0)).length = 76) ∧
    (List.replicate 3 0 ∈ wrappedChunks (List.replicate 60 0) ∧
     (b64EncodeBytes (List.replicate 3 0)).length ≤ 76) := by
  have hch : wrappedChunks (List.replicate 60 (0:Nat)) =
      [List.replicate 57 0, List.replicate 3 0] := by
    rw [wrappedChunks]
    simp only [List.length_replicate, List.take_replicate, List.drop_replicate]
    norm_num
    rw [wrappedChunks]
    norm_num
  have hm1 : List.replicate (57:Nat) (0:Nat) ∈
      (wrappedChunks (List.replicate 60 0)).dropLast := by
    rw [hch]; simp
  have hm2 : List.replicate (3:Nat) (0:Nat) ∈ wrappedChunks (List.replicate 60 0) := by
    rw [hch]; simp
  exact ⟨(C7_base64_lines (List.replicate 60 0)).1,
         ⟨hm1, (C7_base64_lines (List.replicate 60 0)).2.1 _ hm1⟩,
         ⟨hm2, ((C7_base64_lines (List.replicate 60 0)).2.2 _ hm2).1⟩⟩

/-- C10: the count returned by `wrappedBase64.Write` is the base64-encoded
length of only the final partial chunk (`len(p) mod 57`), not the number of
input bytes consumed; for every non-empty input whose length is a multiple
of 57 it returns 0 with a nil error although the full encoded output was
written, a short-write report violating the `io.Writer` contract. -/
theorem C10_write_return :
    (∀ p : List Nat, (wrappedWriteGo p).2 = encodedLen (p.length % 57)) ∧
    (∀ p : List Nat, p ≠ [] → p.length % 57 = 0 →
      (wrappedWriteGo p).2 = 0 ∧ (wrappedWriteGo p).2 ≠ p.length ∧
      (wrappedWriteGo p).1 ≠ []) := by
  refine ⟨wrappedWriteGo_count, ?_⟩
  intro p hne hmod
  have hn : (wrappedWriteGo p).2 = 0 := by
    rw [wrappedWriteGo_count, hmod]; rfl
  have hlen : p.length ≠ 0 := by
    intro h0
    exact hne (List.eq_nil_of_length_eq_zero h0)
  refine ⟨hn, ?_, ?_⟩
  · rw [hn]; omega
  · intro hout
    obtain ⟨c, cs, hcc⟩ := List.exists_cons_of_ne_nil (wrappedChunks_ne_nil hne)
    rw [wrappedWriteGo_eq_chunks, hcc] at hout
    simp [List.flatten_cons, crlf, str] at hout

/-- Witness for C10 at the concrete input of 57 zero bytes. -/
theorem C10_write_return_witness :
    (List.replicate 57 (0:Nat)) ≠ [] ∧ (List.replicate 57 (0:Nat)).length % 57 = 0 ∧
    ((wrappedWriteGo (List.replicate 57 0)).2 = 0 ∧
     (wrappedWriteGo (List.replicate 57 0)).2 ≠ (List.replicate 57 (0:Nat)).length ∧
     (wrappedWriteGo (List.replicate 57 0)).1 ≠ []) :=
  ⟨by decide, by decide,
   C10_write_return.2 (List.replicate 57 0) (by decide) (by decide)⟩

/-! ### SMTP client (src/smtp/smtp.go, src/smtp/smtp_impl.go)

The client is modelled over an explicit state: the lines written to the
transport (`sent`), the queue of server responses (`script`, each entry the
final (code, full message) pair produced by `textproto.ReadResponse`), and
the fields of the Go `Client` struct.  Reading past the end of the script is
the model of a transport error. -/

/-- `SMTPError` (smtp.go): code, RFC 2034 enhanced code, message. -/
structure SMTPErrorS where
  code : Nat
  enhancedCode : Int × Int × Int
  message : Str
deriving DecidableEq

/-- The errors a client call can return.  `validation` is the
`validateLine` error, `transport` an underlying read/write failure,
`proto` a `toSMTPErr`-wrapped protocol error, `helloAfter` the
`"smtp: Hello called after other methods"` error, `mechStart`/`mechNext`
errors from the auth mechanism's Start/Next, `decode` a base64 challenge
decode failure, `noExt` the missing-extension errors of `Mail`. -/
inductive CErr where
  | validation : Str → CErr
  | transport : CErr
  | proto : SMTPErrorS → CErr
  | helloAfter : CErr
  | mechStart : Str → CErr
  | mechNext : Str → CErr
  | decode : Str → CErr
  | noExt : Str → CErr
deriving DecidableEq

/-- The Go `Client` struct fields relevant to the modelled methods, plus the
wire transcript (`sent`) and the server script. -/
structure ClientState where
  sent : List Str
  script : List (Nat × Str)
  didHello : Bool
  helloError : Option CErr
  localName : Str
  ext : Option (List (Str × Str))
  auth : List Str
  rcpts : List Str
deriving DecidableEq

/-- `validateLine` (smtp_impl.go lines 229-235): reject a line containing CR
or LF, as per RFC 5321. -/
def validateLine (line : Str) : Option CErr :=
  if line.any (fun c => c = '\n' ∨ c = '\r') then
    some (.validation (str "smtp: A line must not contain CR or LF"))
  else none

/-- The expect-code matching of `textproto.ReadResponse`: a 1-digit expect
code matches the hundreds, a 2-digit one the tens, a 3-digit one exactly;
a non-positive expect code disables the check. -/
def codeMatches (expect code : Nat) : Bool :=
  if 1 ≤ expect ∧ expect < 10 then code / 100 = expect
  else if 10 ≤ expect ∧ expect < 100 then code / 10 = expect
  else if 100 ≤ expect then code = expect
  else true

/-- Digit-string value for `strconv.Atoi`; `none` on empty or non-digit. -/
def digitsValAux (acc : Nat) : Str → Option Nat
  | [] => some acc
  | c :: rest => if c.isDigit then digitsValAux (acc * 10 + (c.toNat - 48)) rest else none

/-- `strconv.Atoi`: optional sign followed by at least one digit. -/
def atoiGo (s : Str) : Option Int :=
  match s with
  | [] => none
  | '+' :: rest => if rest = [] then none else (digitsValAux 0 rest).map Int.ofNat
  | '-' :: rest => if rest = [] then none else (digitsValAux 0 rest).map (fun n => -(n : Int))
  | _ => (digitsValAux 0 s).map Int.ofNat

/-- `strings.Split` with a single-character separator. -/
def splitOnChar (sep : Char) : Str → List Str
  | [] => [[]]
  | c :: rest =>
      if c = sep then [] :: splitOnChar sep rest
      else
        match splitOnChar sep rest with
        | [] => [[c]]
        | l :: ls => (c :: l) :: ls

/-- `strings.SplitN(s, sep, 2)` with a single-character separator. -/
def splitN2 (sep : Char) : Str → List Str
  | [] => [[]]
  | c :: rest =>
      if c = sep then [[], rest]
      else
        match splitN2 sep rest with
        | [x] => [c :: x]
        | [x, y] => [c :: x, y]
        | _ => [[c]]

/-- `parseEnhancedCode` (smtp_impl.go lines 186-201): three dot-separated
integers. -/
def parseEnhancedCode (s : Str) : Option (Int × Int × Int) :=
  match splitOnChar '.' s with
  | [a, b, c] =>
      match atoiGo a, atoiGo b, atoiGo c with
      | some x, some y, some z => some (x, y, z)
      | _, _, _ => none
  | _ => none

/-- `toSMTPErr` (smtp_impl.go lines 203-227): wrap a textproto error,
parsing a leading enhanced status code when present. -/
def toSMTPErr (code : Nat) (msg : Str) : SMTPErrorS :=
  match splitN2 ' ' msg with
  | [a, rest] =>
      match parseEnhancedCode a with
      | some ec => { code := code, enhancedCode := ec, message := rest }
      | none => { code := code, enhancedCode := (0, 0, 0), message := msg }
  | _ => { code := code, enhancedCode := (0, 0, 0), message := msg }

/-- `Client.cmd`: append the command line to the transcript, consume one
scripted response, and check it against the expect code; an exhausted script
models a transport error. -/
def cmdC (expect : Nat) (line : Str) (st : ClientState) :
    (Nat × Str × Option CErr) × ClientState :=
  let st1 := { st with sent := st.sent ++ [line] }
  match st1.script with
  | [] => ((0, [], some .transport), st1)
  | (code, msg) :: rest =>
      let st2 := { st1 with script := rest }
      if codeMatches expect code then ((code, msg, none), st2)
      else
        let e := toSMTPErr code msg
        ((code, e.message, some (.proto e)), st2)

/-- Assoc-list update with Go map `m[k] = v` semantics. -/
def assocSet (m : List (Str × Str)) (k v : Str) : List (Str × Str) :=
  if m.any (fun kv => kv.1 = k) then
    m.map (fun kv => if kv.1 = k then (k, v) else kv)
  else m ++ [(k, v)]

/-- Assoc-list lookup with Go map semantics. -/
def assocGet (m : List (Str × Str)) (k : Str) : Option Str :=
  (m.find? (fun kv => kv.1 = k)).map (fun kv => kv.2)

/-- `Client.ehlo` (smtp.go lines 251-278): send EHLO, parse the response's
continuation lines into the extension table, and the AUTH mechanism list. -/
def ehloM (st : ClientState) : Option CErr × ClientState :=
  let r := cmdC 250 (str "EHLO " ++ st.localName) st
  let st1 := r.2
  match r.1.2.2 with
  | some e => (some e, st1)
  | none =>
      let extList := splitOnChar '\n' r.1.2.1
      let ext : List (Str × Str) :=
        if extList.length > 1 then
          (extList.drop 1).foldl (fun m line =>
            match splitN2 ' ' line with
            | [a, b] => assocSet m a b
            | [a] => assocSet m a []
            | _ => m) []
        else []
      let auth := match assocGet ext (str "AUTH") with
        | some mechs => splitOnChar ' ' mechs
        | none => st1.auth
      (none, { st1 with ext := some ext, auth := auth })

/-- `Client.helo` (smtp.go lines 243-247): clear the extension table and send
HELO. -/
def heloM (st : ClientState) : Option CErr × ClientState :=
  let st0 := { st with ext := none }
  let r := cmdC 250 (str "HELO " ++ st0.localName) st0
  (r.1.2.2, r.2)

/-- `Client.hello` (smtp.go lines 212-221): run the hello exchange once,
falling back from EHLO to HELO, and cache the result. -/
def helloM (st : ClientState) : Option CErr × ClientState :=
  if st.didHello then (st.helloError, st)
  else
    let st0 := { st with didHello := true }
    let r1 := ehloM st0
    match r1.1 with
    | none => (r1.2.helloError, r1.2)
    | some _ =>
        let r2 := heloM r1.2
        let st3 := { r2.2 with helloError := r2.1 }
        (st3.helloError, st3)

/-- `Client.Hello` (smtp.go lines 230-239): validate the local name, refuse
a repeated or late call, otherwise fix the local name and run the hello
exchange. -/
def HelloM (localName : Str) (st : ClientState) : Option CErr × ClientState :=
  match validateLine localName with
  | some e => (some e, st)
  | none =>
      if st.didHello then (some .helloAfter, st)
      else helloM { st with localName := localName }

/-- `Client.Verify` (smtp.go lines 326-335). -/
def VerifyM (addr : Str) (st : ClientState) : Option CErr × ClientState :=
  match validateLine addr with
  | some e => (some e, st)
  | none =>
      let rh := helloM st
      match rh.1 with
      | some e => (some e, rh.2)
      | none =>
          let r := cmdC 250 (str "VRFY " ++ addr) rh.2
          (r.1.2.2, r.2)

/-- `MailOptions` (smtp.go lines 31-53). -/
structure MailOptionsS where
  size : Nat
  requireTLS : Bool
  utf8 : Bool
  auth : Option Str
deriving DecidableEq

/-- Uppercase hex digits of `n`, i.e. `strings.ToUpper(strconv.FormatInt(n, 16))`. -/
def hexUpper (n : Nat) : Str := (Nat.toDigits 16 n).map Char.toUpper

/-- `encodeXtext` (smtp_impl.go lines 237-254), modelled exactly as written
(every rune is followed by its `+HEX` form; `+`/`=` are doubled). -/
def encodeXtext (raw : Str) : Str :=
  raw.flatMap (fun ch =>
    (if ch = '+' ∨ ch = '=' then '+' :: hexUpper ch.toNat else []) ++
    (if '!' < ch ∧ ch < '~' then [ch] else []) ++
    ('+' :: hexUpper ch.toNat))

/-- `Client.Mail` (smtp.go lines 395-431): validate, run hello, build the
MAIL command with the extension-dependent parameters, and require a 250. -/
def MailM (fromA : Str) (opts : Option MailOptionsS) (st : ClientState) :
    Option CErr × ClientState :=
  match validateLine fromA with
  | some e => (some e, st)
  | none =>
      let rh := helloM st
      match rh.1 with
      | some e => (some e, rh.2)
      | none =>
          let st1 := rh.2
          let ext := st1.ext.getD []
          let l1 := str "MAIL FROM:<" ++ fromA ++ str ">" ++
            (if (assocGet ext (str "8BITMIME")).isSome then str " BODY=8BITMIME" else []) ++
            (match opts with
             | some o =>
                 if (assocGet ext (str "SIZE")).isSome ∧ o.size ≠ 0 then
                   str " SIZE=" ++ str (toString o.size)
                 else []
             | none => [])
          match opts with
          | some o =>
              if o.requireTLS ∧ (assocGet ext (str "REQUIRETLS")).isNone then
                (some (.noExt (str "smtp: server does not support REQUIRETLS")), st1)
              else if o.utf8 ∧ (assocGet ext (str "SMTPUTF8")).isNone then
                (some (.noExt (str "smtp: server does not support SMTPUTF8")), st1)
              else
                let l2 := l1 ++ (if o.requireTLS then str " REQUIRETLS" else []) ++
                  (if o.utf8 then str " SMTPUTF8" else []) ++
                  (match o.auth with
                   | some a =>
                       if (assocGet ext (str "AUTH")).isSome then
                         str " AUTH=" ++ encodeXtext a
                       else []
                   | none => [])
                let r := cmdC 250 l2 st1
                (r.1.2.2, r.2)
          | none =>
              let r := cmdC 250 l1 st1
              (r.1.2.2, r.2)

/-- `Client.Rcpt` (smtp.go lines 438-447): validate, send `RCPT TO`, require
a 25x response and record the recipient. -/
def RcptM (toA : Str) (st : ClientState) : Option CErr × ClientState :=
  match validateLine toA with
  | some e => (some e, st)
  | none =>
      let r := cmdC 25 (str "RCPT TO:<" ++ toA ++ str ">") st
      match r.1.2.2 with
      | some e => (some e, r.2)
      | none => (none, { r.2 with rcpts := r.2.rcpts ++ [toA] })

/-! ### SASL Auth (smtp.go lines 341-384) -/

/-- Base64 digit value for decoding. -/
def b64DecVal (c : Char) : Option Nat :=
  if 'A' ≤ c ∧ c ≤ 'Z' then some (c.toNat - 65)
  else if 'a' ≤ c ∧ c ≤ 'z' then some (c.toNat - 97 + 26)
  else if '0' ≤ c ∧ c ≤ '9' then some (c.toNat - 48 + 52)
  else if c = '+' then some 62
  else if c = '/' then some 63
  else none

/-- Decode base64 quantums with `=` padding allowed only in the final
quantum. -/
def b64DecodeGroups : Str → Option (List Nat)
  | [] => some []
  | c1 :: c2 :: c3 :: c4 :: rest =>
      match b64DecVal c1, b64DecVal c2 with
      | some v1, some v2 =>
          if c3 = '=' ∧ c4 = '=' ∧ rest = [] then some [v1 * 4 + v2 / 16]
          else
            match b64DecVal c3 with
            | some v3 =>
                if c4 = '=' ∧ rest = [] then
                  some [v1 * 4 + v2 / 16, v2 % 16 * 16 + v3 / 4]
                else
                  match b64DecVal c4 with
                  | some v4 =>
                      (b64DecodeGroups rest).map
                        (fun ds => (v1 * 4 + v2 / 16) :: (v2 % 16 * 16 + v3 / 4) ::
                                   (v3 % 4 * 64 + v4) :: ds)
                  | none => none
            | none => none
      | _, _ => none
  | _ => none

/-- `base64.StdEncoding.DecodeString`: CR/LF are skipped, then strict
4-character quantums (the default encoding does not reject non-zero trailing
bits, matching this model). -/
def b64DecodeGo (s : Str) : Option (List Nat) :=
  b64DecodeGroups (s.filter (fun c => ¬ (c = '\r' ∨ c = '\n')))

/-- Go `unicode.IsSpace` restricted to the ASCII range used here. -/
def isSpaceGo (c : Char) : Bool :=
  c = ' ' ∨ c = '\t' ∨ c = '\n' ∨ c = Char.ofNat 11 ∨ c = Char.ofNat 12 ∨ c = '\r'

/-- Trailing-whitespace trim. -/
def trimRight (s : Str) : Str := (s.reverse.dropWhile isSpaceGo).reverse

/-- `strings.TrimSpace`. -/
def trimSpaceGo (s : Str) : Str := trimRight (s.dropWhile isSpaceGo)

/-- A SASL mechanism (the `Auth` interface of smtp/auth.go): `Start` yields
the mechanism name and optional initial response, `Next` answers a decoded
challenge with an optional response; `none` models a nil byte slice. -/
structure AuthMech where
  start : Except Str (Str × Option (List Nat))
  next : List Nat → Except Str (Option (List Nat))

/-- The per-response decision of the `Client.Auth` loop: a 334 decodes the
challenge and asks the mechanism for the next response, a 235 ends the
exchange (nil response), anything else is a protocol error. -/
def authStep (m : AuthMech) (code : Nat) (msg64 : Str) :
    Except CErr (Option (List Nat)) :=
  if code = 334 then
    match b64DecodeGo msg64 with
    | none => .error (.decode msg64)
    | some msg =>
        match m.next msg with
        | .error e => .error (.mechNext e)
        | .ok resp => .ok resp
  else if code = 235 then .ok none
  else .error (.proto (toSMTPErr code msg64))

/-- One iteration of the `Client.Auth` response loop (smtp.go lines
353-382), entered with a fresh (code, message) pair and `err == nil`; any
error sends the `*` abort line (`c.cmd(501, "*")`, result discarded) before
returning, a nil response ends the loop successfully, otherwise the encoded
response is sent and the next scripted reply processed. -/
def authLoop (m : AuthMech) (code : Nat) (msg64 : Str) (st : ClientState) :
    Option CErr × ClientState :=
  match authStep m code msg64 with
  | .error e =>
      let rA := cmdC 501 (str "*") st
      (some e, rA.2)
  | .ok none => (none, st)
  | .ok (some resp) =>
      let line := b64EncodeBytes resp
      match hs : st.script with
      | [] => (some .transport, { st with sent := st.sent ++ [line] })
      | (code2, msg2) :: rest =>
          authLoop m code2 msg2 { st with sent := st.sent ++ [line], script := rest }
termination_by st.script.length
decreasing_by simp [hs]

/-- `Client.Auth` (smtp.go lines 341-384): run hello, start the mechanism,
send the initial `AUTH` command (trimmed when the mechanism has no initial
response) and enter the response loop. -/
def AuthM (m : AuthMech) (st : ClientState) : Option CErr × ClientState :=
  let rh := helloM st
  match rh.1 with
  | some e => (some e, rh.2)
  | none =>
      match m.start with
      | .error e => (some (.mechStart e), rh.2)
      | .ok (mech, resp) =>
          let resp64 := b64EncodeBytes (resp.getD [])
          let line := trimSpaceGo (str "AUTH " ++ mech ++ str " " ++ resp64)
          let r := cmdC 0 line rh.2
          match r.1.2.2 with
          | some e => (some e, r.2)
          | none => authLoop m r.1.1 r.1.2.1 r.2

/-! ### Lemmas about the client model -/

theorem cmdC_state (e : Nat) (l : Str) (st : ClientState) :
    (cmdC e l st).2 = { st with sent := st.sent ++ [l], script := st.script.tail } := by
  obtain ⟨se, sc, dh, he, ln, ex, au, rc⟩ := st
  rcases sc with _ | ⟨⟨c, m⟩, rest⟩
  · rfl
  · unfold cmdC
    dsimp only
    split <;> rfl

theorem ehloM_didHello (st : ClientState) :
    ((ehloM st).2).didHello = st.didHello := by
  unfold ehloM
  rcases h : (cmdC 250 (str "EHLO " ++ st.localName) st).1.2.2 with _ | e <;>
    simp [h, cmdC_state]

theorem heloM_didHello (st : ClientState) :
    ((heloM st).2).didHello = st.didHello := by
  unfold heloM
  simp [cmdC_state]

theorem helloM_fst_eq (st : ClientState) :
    (helloM st).1 = ((helloM st).2).helloError := by
  unfold helloM
  by_cases h : st.didHello
  · simp [h]
  · simp only [h, if_false, Bool.false_eq_true]
    rcases h1 : (ehloM { st with didHello := true }).1 with _ | e <;> simp [h1]

theorem helloM_didHello (st : ClientState) (h : st.didHello = false) :
    ((helloM st).2).didHello = true := by
  unfold helloM
  simp only [h, Bool.false_eq_true, if_false]
  rcases h1 : (ehloM { st with didHello := true }).1 with _ | e
  · simp only [h1]
    have := ehloM_didHello { st with didHello := true }
    simpa using this
  · simp only [h1]
    have h2 := heloM_didHello (ehloM { st with didHello := true }).2
    have h3 := ehloM_didHello { st with didHello := true }
    simp at h3
    simp [h2, h3]

theorem helloM_cached (st : ClientState) (h : st.didHello = true) :
    helloM st = (st.helloError, st) := by
  unfold helloM
  simp [h]

/-- Whether a client error aborts the AUTH exchange with a `*` line:
protocol errors from a non-334/235 code, mechanism `Next` errors, and
challenge decode errors. -/
def abortable : CErr → Bool
  | .proto _ => true
  | .mechNext _ => true
  | .decode _ => true
  | _ => false

theorem b64EncodeBytes_ne_star (bs : List Nat) : b64EncodeBytes bs ≠ str "*" := by
  intro h
  have hl := congrArg List.length h
  rw [b64EncodeBytes_length] at hl
  unfold encodedLen at hl
  have h1 : (bs.length + 2) / 3 * 4 = 1 := by simpa [str] using hl
  omega

theorem trimRight_isPrefix (s : Str) : ∃ t, trimRight s ++ t = s := by
  obtain ⟨t, ht⟩ := @List.dropWhile_suffix _ s.reverse isSpaceGo
  refine ⟨t.reverse, ?_⟩
  have h2 := congrArg List.reverse ht
  simp only [List.reverse_append, List.reverse_reverse] at h2
  exact h2

theorem trimSpace_cons_ne_star (c : Char) (hc : isSpaceGo c = false) (t : Str)
    (hne : c ≠ '*') : trimSpaceGo (c :: t) ≠ str "*" := by
  unfold trimSpaceGo
  rw [List.dropWhile_cons]
  simp only [hc, Bool.false_eq_true, if_false]
  obtain ⟨u, hu⟩ := trimRight_isPrefix (c :: t)
  intro h
  rw [h] at hu
  have hh : '*' = c := by
    have h3 := congrArg (fun l => l.headD ' ') hu
    simpa [str] using h3
  exact hne hh.symm

theorem authLoop_star (m : AuthMech) :
    ∀ (n : Nat) (code : Nat) (msg64 : Str) (st : ClientState),
      st.script.length ≤ n → str "*" ∉ st.sent →
      ((∀ e, (authLoop m code msg64 st).1 = some e → abortable e = true →
          str "*" ∈ (authLoop m code msg64 st).2.sent) ∧
       ((authLoop m code msg64 st).1 = none →
          str "*" ∉ (authLoop m code msg64 st).2.sent)) := by
  intro n
  induction n with
  | zero =>
      rintro code msg64 ⟨se, sc, dh, heE, ln, ex, au, rc⟩ hlen hstar
      simp only at hlen hstar
      rw [authLoop]
      rcases hstep : authStep m code msg64 with e | o
      · refine ⟨fun e' _ _ => ?_, fun h => by simp at h⟩
        dsimp only
        rw [cmdC_state]
        simp
      · rcases o with _ | resp
        · exact ⟨fun e' h => by simp at h, fun _ => hstar⟩
        · have hsc : sc = [] := List.eq_nil_of_length_eq_zero (by omega)
          subst hsc
          dsimp only
          refine ⟨fun e' h hab => ?_, fun h => by simp at h⟩
          have he' : e' = CErr.transport := (Option.some.inj h).symm
          rw [he'] at hab
          simp [abortable] at hab
  | succ n ih =>
      rintro code msg64 ⟨se, sc, dh, heE, ln, ex, au, rc⟩ hlen hstar
      simp only at hlen hstar
      rw [authLoop]
      rcases hstep : authStep m code msg64 with e | o
      · refine ⟨fun e' _ _ => ?_, fun h => by simp at h⟩
        dsimp only
        rw [cmdC_state]
        simp
      · rcases o with _ | resp
        · exact ⟨fun e' h => by simp at h, fun _ => hstar⟩
        · rcases sc with _ | ⟨⟨c2, m2⟩, rest⟩
          · dsimp only
            refine ⟨fun e' h hab => ?_, fun h => by simp at h⟩
            have he' : e' = CErr.transport := (Option.some.inj h).symm
            rw [he'] at hab
            simp [abortable] at hab
          · dsimp only
            have hrest : rest.length ≤ n := by
              simp only [List.length_cons] at hlen
              omega
            have hstar2 : str "*" ∉ se ++ [b64EncodeBytes resp] := by
              simp only [List.mem_append, List.mem_singleton]
              rintro (h | h)
              · exact hstar h
              · exact b64EncodeBytes_ne_star resp h.symm
            exact ih c2 m2 ⟨se ++ [b64EncodeBytes resp], rest, dh, heE, ln, ex, au, rc⟩
              hrest hstar2

theorem codeMatches_zero (c : Nat) : codeMatches 0 c = true := by
  simp [codeMatches]

/-- A concrete client state used by the witnesses: fresh connection, one
scripted 250 response. -/
def demoState : ClientState :=
  { sent := [], script := [(250, str "ok")], didHello := false, helloError := none,
    localName := str "localhost", ext := none, auth := [], rcpts := [] }

/-- The validation error produced by `validateLine`. -/
def lineErr : CErr := .validation (str "smtp: A line must not contain CR or LF")

/-! ### Claim theorems for the SMTP client -/

/-- C3: for every address or hostname string containing a CR or LF
character, `Client.Mail`, `Client.Rcpt`, `Client.Hello` and `Client.Verify`
return the validation error and leave the client state — in particular the
wire transcript `sent` — completely unchanged: the command is never placed
on the wire. -/
theorem C3_crlf_rejected (s : Str) (st : ClientState) (opts : Option MailOptionsS)
    (h : s.any (fun c => c = '\n' ∨ c = '\r') = true) :
    MailM s opts st = (some lineErr, st) ∧
    RcptM s st = (some lineErr, st) ∧
    HelloM s st = (some lineErr, st) ∧
    VerifyM s st = (some lineErr, st) := by
  have hv : validateLine s = some lineErr := by
    unfold validateLine lineErr
    rw [h]
    rfl
  refine ⟨?_, ?_, ?_, ?_⟩
  · unfold MailM; rw [hv]
  · unfold RcptM; rw [hv]
  · unfold HelloM; rw [hv]
  · unfold VerifyM; rw [hv]

/-- Witness for C3 at a concrete injection attempt. -/
theorem C3_crlf_rejected_witness :
    ((str "a@b.com\r\nRCPT TO:<evil@x>").any (fun c => c = '\n' ∨ c = '\r') = true) ∧
    (MailM (str "a@b.com\r\nRCPT TO:<evil@x>") none demoState =
      (some lineErr, demoState) ∧
     RcptM (str "a@b.com\r\nRCPT TO:<evil@x>") demoState = (some lineErr, demoState) ∧
     HelloM (str "a@b.com\r\nRCPT TO:<evil@x>") demoState = (some lineErr, demoState) ∧
     VerifyM (str "a@b.com\r\nRCPT TO:<evil@x>") demoState = (some lineErr, demoState)) :=
  ⟨by decide, C3_crlf_rejected (str "a@b.com\r\nRCPT TO:<evil@x>") demoState none (by decide)⟩

/-- C8 counterexample: after a successful `Hello`, a second `Hello` call
returns the `"smtp: Hello called after other methods"` error, not the
cached nil result the claim describes. -/
theorem C8_counterexample :
    (HelloM (str "x") demoState).1 = none ∧
    (HelloM (str "x") (HelloM (str "x") demoState).2).1 = some CErr.helloAfter := by
  constructor
  · rfl
  · rfl

/-- C8 (amended): a first `Hello` marks the client as greeted; once greeted,
any further `Hello` call returns the `"smtp: Hello called after other
methods"` error leaving the state (hence the wire) untouched, while the
internal `hello` used by the other client methods is the no-op returning the
cached hello result; and a successful `Hello` caches a nil hello error. -/
theorem C8_hello_second_call (name1 name2 : Str) (st0 : ClientState)
    (h1 : validateLine name1 = none) (h2 : validateLine name2 = none)
    (hd0 : st0.didHello = false) :
    ((HelloM name1 st0).2).didHello = true ∧
    (∀ st : ClientState, st.didHello = true →
       HelloM name2 st = (some CErr.helloAfter, st) ∧
       helloM st = (st.helloError, st)) ∧
    ((HelloM name1 st0).1 = none → ((HelloM name1 st0).2).helloError = none) := by
  have hred : HelloM name1 st0 = helloM { st0 with localName := name1 } := by
    unfold HelloM
    rw [h1, hd0]
    rfl
  refine ⟨?_, ?_, ?_⟩
  · rw [hred]
    exact helloM_didHello _ (by simpa using hd0)
  · intro st hst
    constructor
    · unfold HelloM
      rw [h2, hst]
      rfl
    · exact helloM_cached st hst
  · intro hnone
    rw [hred] at hnone ⊢
    rw [← helloM_fst_eq]
    exact hnone

/-- Witness for C8 at the concrete demo client. -/
theorem C8_hello_second_call_witness :
    (validateLine (str "x") = none ∧ demoState.didHello = false) ∧
    (((HelloM (str "x") demoState).2).didHello = true ∧
     (∀ st : ClientState, st.didHello = true →
        HelloM (str "x") st = (some CErr.helloAfter, st) ∧
        helloM st = (st.helloError, st)) ∧
     ((HelloM (str "x") demoState).1 = none →
        ((HelloM (str "x") demoState).2).helloError = none)) :=
  ⟨⟨by decide, by decide⟩,
   C8_hello_second_call (str "x") (str "x") demoState (by decide) (by decide) (by decide)⟩

/-- C9: during `Client.Auth`, whenever the exchange fails mid-way — the
server replies with a code other than 334 or 235, the challenge fails to
decode, or the mechanism's `Next` returns an error — the client sends the
abort line `*` before returning the error; a successful exchange (ended by
a 235 reply or a nil mechanism response) never sends `*`. -/
theorem C9_auth_abort (m : AuthMech) (st : ClientState)
    (hd : st.didHello = true) (he : st.helloError = none)
    (hstar : str "*" ∉ st.sent) :
    (∀ e, (AuthM m st).1 = some e → abortable e = true →
        str "*" ∈ (AuthM m st).2.sent) ∧
    ((AuthM m st).1 = none → str "*" ∉ (AuthM m st).2.sent) := by
  have hhm : helloM st = (none, st) := by
    rw [helloM_cached st hd, he]
  obtain ⟨se, sc, dh, heE, ln, ex, au, rc⟩ := st
  simp only at hd he hstar
  unfold AuthM
  rw [hhm]
  dsimp only
  rcases m.start with e | ⟨mech, resp⟩
  · refine ⟨fun e' h hab => ?_, fun h => by simp at h⟩
    have he' : e' = CErr.mechStart e := (Option.some.inj h).symm
    rw [he'] at hab
    simp [abortable] at hab
  · have hline : ∀ X : Str, trimSpaceGo (str "AUTH " ++ mech ++ str " " ++ X) ≠ str "*" := by
      intro X
      have hA : str "AUTH " ++ mech ++ str " " ++ X =
          'A' :: (str "UTH " ++ mech ++ str " " ++ X) := rfl
      rw [hA]
      exact trimSpace_cons_ne_star 'A' (by decide) _ (by decide)
    rcases sc with _ | ⟨⟨c0, m0⟩, rest⟩
    · unfold cmdC
      dsimp only
      refine ⟨fun e' h hab => ?_, fun h => by simp at h⟩
      have he' : e' = CErr.transport := (Option.some.inj h).symm
      rw [he'] at hab
      simp [abortable] at hab
    · unfold cmdC
      dsimp only
      simp only [codeMatches_zero, eq_self_iff_true, if_true]
      have hstar2 : str "*" ∉
          se ++ [trimSpaceGo (str "AUTH " ++ mech ++ str " " ++
            b64EncodeBytes (resp.getD []))] := by
        simp only [List.mem_append, List.mem_singleton]
        rintro (h | h)
        · exact hstar h
        · exact hline _ h.symm
      exact authLoop_star m rest.length c0 m0
        ⟨se ++ [trimSpaceGo (str "AUTH " ++ mech ++ str " " ++
          b64EncodeBytes (resp.getD []))], rest, dh, heE, ln, ex, au, rc⟩
        (le_refl _) hstar2

/-- A PLAIN-style mechanism used by the C9 witness. -/
def demoMech : AuthMech :=
  { start := .ok (str "PLAIN", some [0, 97, 0, 98]),
    next := fun _ => .error (str "unexpected server challenge") }

/-- A greeted client whose server rejects the AUTH command with a 535. -/
def authRejectState : ClientState :=
  { sent := [], script := [(535, str "5.7.8 authentication failed"), (501, str "bad")],
    didHello := true, helloError := none,
    localName := str "localhost", ext := some [(str "AUTH", str "PLAIN")],
    auth := [str "PLAIN"], rcpts := [] }

/-- The client state after the initial AUTH command of the witness run. -/
def authAfterState : ClientState :=
  { sent := [str "AUTH PLAIN AGEAYg=="], script := [(501, str "bad")],
    didHello := true, helloError := none,
    localName := str "localhost", ext := some [(str "AUTH", str "PLAIN")],
    auth := [str "PLAIN"], rcpts := [] }

/-- Witness for C9: the rejected AUTH exchange sends the `*` abort line. -/
theorem C9_auth_abort_witness :
    (authRejectState.didHello = true ∧ authRejectState.helloError = none ∧
     str "*" ∉ authRejectState.sent) ∧
    ((AuthM demoMech authRejectState).1 =
        some (CErr.proto (toSMTPErr 535 (str "5.7.8 authentication failed"))) ∧
     str "*" ∈ (AuthM demoMech authRejectState).2.sent) := by
  have h1 : AuthM demoMech authRejectState =
      authLoop demoMech 535 (str "5.7.8 authentication failed") authAfterState := rfl
  have h2 : (AuthM demoMech authRejectState).1 =
      some (CErr.proto (toSMTPErr 535 (str "5.7.8 authentication failed"))) := by
    rw [h1, authLoop]
    rfl
  refine ⟨⟨by decide, by decide, by decide⟩, h2, ?_⟩
  exact (C9_auth_abort demoMech authRejectState (by decide) (by decide) (by decide)).1
    (CErr.proto (toSMTPErr 535 (str "5.7.8 authentication failed"))) h2 (by decide)

/-! ### Text utilities used by the message builder

`textproto.CanonicalMIMEHeaderKey`, `mime.QEncoding`/`mime.BEncoding`
word encoding, and `net/mail` `Address.String` rendering.  The standard
library encoders' splitting of encoded words longer than 75 bytes is not
modelled (no claim depends on it); strings are byte sequences, one `Char`
per byte. -/

/-- Upper-case hex digit. -/
def hexDigitUpper (n : Nat) : Char := (str "0123456789ABCDEF").getD n '0'

/-- The non-alphanumeric bytes allowed in a MIME token
(`textproto.isTokenTable`). -/
def tokenSpecialChars : Str := str "!#$%&'*+-.^_`|~"

/-- `textproto.validHeaderFieldByte`. -/
def validHeaderFieldChar (c : Char) : Bool :=
  c.toNat < 128 ∧ (c.isAlphanum ∨ c ∈ tokenSpecialChars)

/-- The case-normalisation loop of `textproto.canonicalMIMEHeaderKey`:
upper-case at the start and after each `-`, lower-case elsewhere. -/
def canonicalKeyAux : Bool → Str → Str
  | _, [] => []
  | upper, c :: rest =>
      let c' := if upper then c.toUpper else c.toLower
      c' :: canonicalKeyAux (c' = '-') rest

/-- `textproto.CanonicalMIMEHeaderKey`: returned unchanged when any byte is
not a valid header-field byte. -/
def canonicalMIMEHeaderKey (s : Str) : Str :=
  if s.all validHeaderFieldChar then canonicalKeyAux true s else s

/-- `mime.needsEncoding`: any byte outside printable ASCII other than TAB. -/
def needsEncoding (s : Str) : Bool :=
  s.any (fun b => (b < ' ' ∨ b > '~') ∧ b ≠ '\t')

/-- One byte of `mime` Q-encoding (`writeQString`). -/
def qEncodeByte (c : Char) : Str :=
  if c = ' ' then str "_"
  else if '!' ≤ c ∧ c ≤ '~' ∧ c ≠ '=' ∧ c ≠ '?' ∧ c ≠ '_' then [c]
  else ['=', hexDigitUpper (c.toNat / 16 % 16), hexDigitUpper (c.toNat % 16)]

/-- `mime.QEncoding.Encode("utf-8", s)`: identity on strings that need no
encoding, otherwise a Q-encoded word (the 75-byte word splitting of the
standard library is not modelled). -/
def qEncode (s : Str) : Str :=
  if needsEncoding s then str "=?utf-8?q?" ++ s.flatMap qEncodeByte ++ str "?=" else s

/-- `mime.BEncoding.Encode("utf-8", s)` without word splitting. -/
def bEncode (s : Str) : Str :=
  str "=?utf-8?b?" ++ b64EncodeBytes (s.map Char.toNat) ++ str "?="

/-- `mail.Address` (net/mail). -/
structure Address where
  name : Str
  address : Str
deriving DecidableEq

/-- net/mail `isVchar`: printable ASCII or multibyte. -/
def isVchar (c : Char) : Bool := ('!' ≤ c ∧ c ≤ '~') ∨ c.toNat > 127

/-- net/mail `isWSP`. -/
def isWSP (c : Char) : Bool := c = ' ' ∨ c = '\t'

/-- net/mail `isQtext`. -/
def isQtext (c : Char) : Bool :=
  if c = '\\' ∨ c = '"' then false else isVchar c

/-- net/mail `isAtext` with `dot = false`. -/
def isAtext (c : Char) : Bool :=
  if c = '.' ∨ c ∈ str "()<>[]:;@\\,\"" then false else isVchar c

/-- net/mail `quoteString`: quoted string dropping bytes that are neither
qtext, white space nor vchar. -/
def quoteString (s : Str) : Str :=
  '"' :: (s.flatMap (fun r =>
    if isQtext r ∨ isWSP r then [r]
    else if isVchar r then ['\\', r]
    else []) ++ ['"'])

/-- Split an address at the last `@` (`strings.LastIndex`). -/
def splitAtLastAt (s : Str) : Option (Str × Str) :=
  if '@' ∈ s then
    let domain := (s.reverse.takeWhile (fun c => c ≠ '@')).reverse
    some (s.take (s.length - domain.length - 1), domain)
  else none

/-- The local-part quoting test of `Address.String`: quote unless every byte
is atext, or a dot surrounded by non-dot bytes away from the ends. -/
def localNeedsQuote (l : Str) : Bool :=
  (List.range l.length).any (fun i =>
    let r := l.getD i ' '
    ¬ (isAtext r ∨ (r = '.' ∧ 0 < i ∧ l.getD (i - 1) ' ' ≠ '.' ∧ i < l.length - 1)))

/-- `mail.Address.String` (net/mail): `"name" <local@domain>` with local-part
quoting and display-name quoting/encoding. -/
def addrString (a : Address) : Str :=
  let ld := match splitAtLastAt a.address with
    | some (l, d) => (l, d)
    | none => (a.address, [])
  let localq := if localNeedsQuote ld.1 then quoteString ld.1 else ld.1
  let s := '<' :: (localq ++ ('@' :: (ld.2 ++ ['>'])))
  if a.name = [] then s
  else if a.name.all (fun r => isVchar r ∨ isWSP r) then quoteString a.name ++ (' ' :: s)
  else if a.name.any (fun r => r ∈ str "\"#$%&'(),.:;<>@[]^`\x7b|\x7d~") then
    bEncode a.name ++ (' ' :: s)
  else qEncode a.name ++ (' ' :: s)

/-! ### The part model (src/headers.go, src/unnamed/part_001, part_004) -/

/-- `HeaderPart` (headers.go): an ordered header list with an error slot. -/
structure HeaderPart where
  err : Option Str
  headers : List (Str × Str)
deriving DecidableEq

/-- Remove the first entry with the given key, returning its value. -/
def removeFirst (k : Str) : List (Str × Str) → Option (Str × List (Str × Str))
  | [] => none
  | kv :: rest =>
      if kv.1 = k then some (kv.2, rest)
      else (removeFirst k rest).map (fun vl => (vl.1, kv :: vl.2))

/-- `HeaderPart.Remove` (headers.go lines 23-36): canonicalised
lookup-and-delete of the first matching header, returning `""` when the
header was not set. -/
def HeaderPart.removeH (p : HeaderPart) (name : Str) : Str × HeaderPart :=
  match removeFirst (canonicalMIMEHeaderKey name) p.headers with
  | some (v, hs) => (v, { p with headers := hs })
  | none => ([], p)

/-- `HeaderPart.Append` (headers.go lines 39-46) for a single part:
concatenate the header lists, a non-nil incoming error overwriting the
stored one. -/
def HeaderPart.appendH (p q : HeaderPart) : HeaderPart :=
  { err := match q.err with | some e => some e | none => p.err,
    headers := p.headers ++ q.headers }

/-- One emitted header line `Key: <word-encoded-value>\r\n`. -/
def headerLine (k v : Str) : Str := k ++ str ": " ++ qEncode v ++ crlf

/-- `HeaderPart.Write` (headers.go lines 49-56). -/
def HeaderPart.writeH (p : HeaderPart) : Str :=
  (p.headers.map (fun kv => headerLine kv.1 kv.2)).flatten

/-- `HeaderPart.WriteDefault` (headers.go lines 62-73): emit the
user-supplied value when present (removing it), else the fallback. -/
def HeaderPart.writeDefault (p : HeaderPart) (key value : Str) :
    Str × HeaderPart :=
  let keyC := canonicalMIMEHeaderKey key
  let vp := p.removeH keyC
  let v := if vp.1 = [] then value else vp.1
  (headerLine keyC v, vp.2)

/-- Pair up a flat key/value list, canonicalising the keys
(`HeaderPart.FromList`). -/
def pairUp : List Str → List (Str × Str)
  | k :: v :: rest => (canonicalMIMEHeaderKey k, v) :: pairUp rest
  | _ => []

/-- `HeaderPart.FromList` (headers.go lines 75-88) on an empty receiver, as
called by `Headers`: an odd argument count stores a construction error. -/
def headersFromList (list : List Str) : HeaderPart :=
  if list.length % 2 = 1 then
    { err := some (str "blackmail.Headers: odd argument count"), headers := [] }
  else { err := none, headers := pairUp list }

/-- `RcptPart` (part_004): kind tag (`to`/`cc`/`bcc`) and address. -/
structure RcptPart where
  err : Option Str
  kind : Str
  name : Str
  address : Str
deriving DecidableEq

/-- `BodyPart` (part_001 lines 12-21): content type, raw body, nested
sub-parts, attachment flags, filename and content-ID, with an error slot. -/
inductive BodyPart where
  | mk (err : Option Str) (parts : List BodyPart) (ct : Str) (body : Str)
       (filename : Str) (attach : Bool) (inlineAttach : Bool) (cid : Str)

def BodyPart.err : BodyPart → Option Str | .mk e _ _ _ _ _ _ _ => e
def BodyPart.parts : BodyPart → List BodyPart | .mk _ p _ _ _ _ _ _ => p
def BodyPart.ct : BodyPart → Str | .mk _ _ c _ _ _ _ _ => c
def BodyPart.body : BodyPart → Str | .mk _ _ _ b _ _ _ _ => b
def BodyPart.filename : BodyPart → Str | .mk _ _ _ _ f _ _ _ => f
def BodyPart.attach : BodyPart → Bool | .mk _ _ _ _ _ a _ _ => a
def BodyPart.inlineAttach : BodyPart → Bool | .mk _ _ _ _ _ _ i _ => i
def BodyPart.cid : BodyPart → Str | .mk _ _ _ _ _ _ _ c => c

instance : Inhabited BodyPart := ⟨.mk none [] [] [] [] false false []⟩

/-- `BodyPart.isText` (part_001 line 31). -/
def BodyPart.isText (p : BodyPart) : Bool := (str "text/").isPrefixOf p.ct

/-- `BodyPart.isTextHTML` (part_001 line 32). -/
def BodyPart.isTextHTML (p : BodyPart) : Bool := (str "text/html").isPrefixOf p.ct

/-- `BodyPart.isTextPlain` (part_001 line 33). -/
def BodyPart.isTextPlain (p : BodyPart) : Bool := (str "text/plain").isPrefixOf p.ct

/-- `BodyPart.isMultipart` (part_001 line 34). -/
def BodyPart.isMultipart (p : BodyPart) : Bool := (str "multipart/").isPrefixOf p.ct

/-- `BodyPart.cte` (part_001 lines 37-45): Content-Type and
Content-Transfer-Encoding. -/
def BodyPart.cte (p : BodyPart) : Str × Str :=
  if p.isText then (p.ct ++ str "; charset=utf-8", str "quoted-printable")
  else if p.ct = str "application/pgp-signature" then (p.ct, str "7bit")
  else (p.ct, str "base64")

/-- The closed `Part` variant (blackmail.go `Part` interface with its five
implementations: `BodyPart`, `BodyParts`, `RcptPart`, `RcptParts`,
`HeaderPart`). -/
inductive Part where
  | body : BodyPart → Part
  | bodies : List BodyPart → Part
  | rcpt : RcptPart → Part
  | rcpts : List RcptPart → Part
  | headers : HeaderPart → Part

/-- `Part.Error()`: the slice variants always report nil. -/
def Part.errorOf : Part → Option Str
  | .body p => p.err
  | .bodies _ => none
  | .rcpt r => r.err
  | .rcpts _ => none
  | .headers h => h.err

/-- `splitParts` (part_013 lines 35-58): partition parts into body list,
recipient list and one merged header part. -/
def splitParts (parts : List Part) : List BodyPart × List RcptPart × HeaderPart :=
  parts.foldl (fun acc p =>
    match p with
    | .body pp => (acc.1 ++ [pp], acc.2.1, acc.2.2)
    | .bodies pp => (acc.1 ++ pp, acc.2.1, acc.2.2)
    | .rcpt r => (acc.1, acc.2.1 ++ [r], acc.2.2)
    | .rcpts rs => (acc.1, acc.2.1 ++ rs, acc.2.2)
    | .headers h => (acc.1, acc.2.1, acc.2.2.appendH h))
    ([], [], { err := none, headers := [] })

/-- The error-propagation scan of `message` (part_013 lines 62-66): the
first part with a non-nil stored error, with its 0-based index. -/
def firstErrorAux : Nat → List Part → Option (Nat × Str)
  | _, [] => none
  | i, p :: rest =>
      match p.errorOf with
      | some e => some (i, e)
      | none => firstErrorAux (i + 1) rest

def firstError (parts : List Part) : Option (Nat × Str) := firstErrorAux 0 parts

/-! ### Transfer-encoding codecs and CID substitution -/

/-- One non-newline byte of quoted-printable encoding. -/
def qpByte (c : Char) : Str :=
  if ('!' ≤ c ∧ c ≤ '~' ∧ c ≠ '=') ∨ c = ' ' ∨ c = '\t' then [c]
  else ['=', hexDigitUpper (c.toNat / 16 % 16), hexDigitUpper (c.toNat % 16)]

/-- The quoted-printable encoder (`quotedprintable.NewWriter` +
`Write` + `Close`, part_001 lines 47-52 delegate to the Go standard
library, an external collaborator): printable bytes pass through, newlines
are normalised to CRLF, other bytes become `=XX`.  The standard encoder's
76-column soft line breaks and trailing-space encoding are not modelled (no
claim depends on the quoted-printable byte stream). -/
def encodeQP : Str → Str
  | [] => []
  | '\r' :: '\n' :: rest => crlf ++ encodeQP rest
  | '\r' :: rest => crlf ++ encodeQP rest
  | '\n' :: rest => crlf ++ encodeQP rest
  | c :: rest => qpByte c ++ encodeQP rest

/-- The byte stream an encoder writes for a body: quoted-printable for text
parts, wrapped base64 otherwise (`BodyPart.writer`, part_001 lines 47-52). -/
def bodyWriterOut (isText : Bool) (body : Str) : Str :=
  if isText then encodeQP body else (wrappedWriteGo (body.map Char.toNat)).1

/-- `bytes.ReplaceAll` with a non-empty pattern: leftmost non-overlapping
replacement.  (Go inserts between bytes for an empty pattern; the builder
only ever replaces non-empty literal patterns, for which this model is
exact — an empty pattern here is the identity.) -/
def replaceAllL (s pat rep : List Char) : List Char :=
  match s with
  | [] => []
  | c :: rest =>
      if h : pat ≠ [] ∧ pat.isPrefixOf (c :: rest) then
        rep ++ replaceAllL ((c :: rest).drop pat.length) pat rep
      else c :: replaceAllL rest pat rep
termination_by s.length
decreasing_by
  · simp only [List.length_drop, List.length_cons]
    have hp : pat.length ≠ 0 := by
      intro h0
      exact h.1 (List.eq_nil_of_length_eq_zero h0)
    omega
  · simp

/-- The `cid:blackmail:N` placeholder pattern (part_013 line 228). -/
def phStr (n : Nat) : Str := str "src=\"cid:blackmail:" ++ str (toString n) ++ str "\""

/-- The replacement text carrying a real Content-ID (part_013 line 229). -/
def repStr (cid : Str) : Str := str "src=\"cid:" ++ cid ++ str "\""

/-- The CID-substitution loop of `bodyMIME` (part_013 lines 226-231):
replace each `src="cid:blackmail:j"` (1-based) with the j-th gathered
Content-ID, in order. -/
def substCidsAux : Nat → List Str → Str → Str
  | _, [], body => body
  | j, c :: rest, body => substCidsAux (j + 1) rest (replaceAllL body (phStr j) (repStr c))

def substCids (cids : List Str) (body : Str) : Str := substCidsAux 1 cids body

/-- `strconv.FormatUint(n, 36)`. -/
def base36Char (n : Nat) : Char := (str "0123456789abcdefghijklmnopqrstuvwxyz").getD n '0'

def base36Aux : Nat → Nat → Str
  | 0, _ => []
  | fuel + 1, n => if n < 36 then [base36Char n] else base36Aux fuel (n / 36) ++ [base36Char (n % 36)]

def base36 (n : Nat) : Str := base36Aux (n + 1) n

/-- `s[strings.Index(s, "@")+1:]`: everything after the first `@`, or the
whole string when there is none (part_013 line 109). -/
def afterFirstAt (s : Str) : Str :=
  if '@' ∈ s then (s.dropWhile (fun c => c ≠ '@')).drop 1 else s

/-- `isASCII` (part_013 lines 250-257). -/
def isASCIIGo (s : Str) : Bool := s.all (fun c => c.toNat ≤ 0x7f)

/-- `url.PathEscape` (Go standard library, used for RFC 2231 filenames):
RFC 3986 path-segment escaping. -/
def pathEscape (s : Str) : Str :=
  s.flatMap (fun c =>
    if c.isAlphanum ∨ c ∈ str "-_.~" ∨ c ∈ str "$&+,:;=@" ∨ c ∈ str "!'()*" then [c]
    else ['%', hexDigitUpper (c.toNat / 16 % 16), hexDigitUpper (c.toNat % 16)])

/-! ### The multipart writer (`mime/multipart`, as used by part_013) -/

abbrev MIMEHeaderL := List (Str × Str)

/-- `textproto.MIMEHeader.Set`: canonicalise the key and replace any
existing entry. -/
def mimeSet (h : MIMEHeaderL) (k v : Str) : MIMEHeaderL :=
  let kC := canonicalMIMEHeaderKey k
  if h.any (fun kv => kv.1 = kC) then
    h.map (fun kv => if kv.1 = kC then (kC, v) else kv)
  else h ++ [(kC, v)]

/-- Lexicographic byte order on strings (`sort.Strings`). -/
def strLe (a b : Str) : Bool :=
  match a, b with
  | [], _ => true
  | _ :: _, [] => false
  | x :: xs, y :: ys => if x = y then strLe xs ys else decide (x < y)

def insertSorted (x : Str × Str) : MIMEHeaderL → MIMEHeaderL
  | [] => [x]
  | y :: ys => if strLe x.1 y.1 then x :: y :: ys else y :: insertSorted x ys

/-- `multipart.Writer.CreatePart` sorts the header keys before writing. -/
def sortByKey (h : MIMEHeaderL) : MIMEHeaderL := h.foldr insertSorted []

/-- `multipart.Writer.CreatePart`: boundary line (preceded by a blank line
for every part but the first), sorted headers, blank line. -/
def createPart (boundary : Str) (lastpart : Bool) (hdr : MIMEHeaderL) : Str :=
  (if lastpart then crlf else []) ++ str "--" ++ boundary ++ crlf ++
  ((sortByKey hdr).map (fun kv => kv.1 ++ str ": " ++ kv.2 ++ crlf)).flatten ++ crlf

/-- `multipart.Writer.Close`: the closing boundary line. -/
def multipartClose (boundary : Str) : Str :=
  crlf ++ str "--" ++ boundary ++ str "--" ++ crlf

/-- One boundary byte check of `multipart.Writer.SetBoundary` (space is
allowed except as the final byte). -/
def boundaryCharOk (c : Char) (last : Bool) : Bool :=
  c.isAlphanum ∨ c ∈ str "'()+_,-./:=?" ∨ (c = ' ' ∧ ¬ last)

/-- The validation of `multipart.Writer.SetBoundary`. -/
def setBoundaryErr (b : Str) : Option Str :=
  if b.length < 1 ∨ b.length > 70 then some (str "mime: invalid boundary length")
  else if (List.range b.length).all (fun i => boundaryCharOk (b.getD i ' ') (i = b.length - 1))
    then none
    else some (str "mime: invalid boundary character")

/-! ### The recursive MIME serialiser `bodyMIME` (part_013 lines 169-239)

The injectable `testBoundary` of the source becomes the parameter `tb`:
nested multipart containers use the boundary `tb ++ "222"` exactly as the
source does in test mode (`randomBoundary()` in production is the same with
an injected random valid boundary).  A writer is its boundary plus the
"has written a part already" flag; output is accumulated as a string.  As
in the source, an error from the recursive call for a nested container is
discarded (only the nested `SetBoundary` error propagates one level). -/

/-- The Content-IDs gathered from a part list (part_013 lines 171-176). -/
def gatherCids (parts : List BodyPart) : List Str :=
  (parts.filter (fun p => p.cid ≠ [])).map BodyPart.cid

/-- The MIME headers of a non-multipart part (part_013 lines 199-223). -/
def partHeaders (cids : List Str) (p : BodyPart) : MIMEHeaderL :=
  let ctcte := p.cte
  let head0 : MIMEHeaderL :=
    [(str "Content-Transfer-Encoding", ctcte.2), (str "Content-Type", ctcte.1)]
  let head1 := if p.cid ≠ [] then mimeSet head0 (str "Content-ID") ('<' :: (p.cid ++ ['>']))
               else head0
  if p.attach ∨ p.inlineAttach then
    let a := if p.inlineAttach then str "inline" else str "attachment"
    if isASCIIGo p.filename then
      let f := replaceAllL p.filename (str "\"") (str "\\\"")
      mimeSet (mimeSet head1 (str "Content-Disposition")
          (a ++ str "; filename=\"" ++ f ++ str "\""))
        (str "Content-Type") (ctcte.1 ++ str "; name=\"" ++ qEncode f ++ str "\"")
    else
      mimeSet (mimeSet head1 (str "Content-Disposition")
          (a ++ str "; filename*=utf-8''" ++ pathEscape p.filename))
        (str "Content-Type") (ctcte.1 ++ str "; name=\"" ++ qEncode p.filename ++ str "\"")
  else head1

/-- The body bytes of a part after CID substitution (part_013 lines
226-231): substitution applies only to `text/html` parts and only when any
sibling carries a Content-ID. -/
def partBody (cids : List Str) (p : BodyPart) : Str :=
  if p.isTextHTML ∧ cids ≠ [] then substCids cids p.body else p.body

mutual

/-- The per-part body of the `bodyMIME` loop; returns (output, writer
lastpart flag after, error). -/
def bodyMIMEOne (tb wB : Str) (wLast : Bool) (cids : List Str) (p : BodyPart) :
    Str × Bool × Option Str :=
  match p with
  | .mk perr pparts pct pbody pfn pat pil pcid =>
      let p' := BodyPart.mk perr pparts pct pbody pfn pat pil pcid
      if p'.isMultipart then
        let b := tb ++ str "222"
        let out1 := createPart wB wLast
          [(str "Content-Type", pct ++ str ";" ++ crlf ++ str "\tboundary=\"" ++ b ++ str "\"")]
        match setBoundaryErr b with
        | some e => (out1, true, some e)
        | none =>
            let inner := bodyMIMEList tb b false (gatherCids pparts) pparts
            (out1 ++ inner.1 ++ multipartClose b, true, none)
      else
        let out := createPart wB wLast (partHeaders cids p') ++
          bodyWriterOut p'.isText (partBody cids p')
        (out, true, none)

/-- The loop of `bodyMIME` over the parts of one container. -/
def bodyMIMEList (tb wB : Str) (wLast : Bool) (cids : List Str)
    (parts : List BodyPart) : Str × Bool × Option Str :=
  match parts with
  | [] => ([], wLast, none)
  | p :: rest =>
      let r1 := bodyMIMEOne tb wB wLast cids p
      match r1.2.2 with
      | some e => (r1.1, r1.2.1, some e)
      | none =>
          let r2 := bodyMIMEList tb wB r1.2.1 cids rest
          (r1.1 ++ r2.1, r2.2.1, r2.2.2)

end

/-- `bodyMIME` (part_013 lines 169-239): gather the sibling Content-IDs,
then serialise each part. -/
def bodyMIME (tb wB : Str) (wLast : Bool) (parts : List BodyPart) :
    Str × Bool × Option Str :=
  bodyMIMEList tb wB wLast (gatherCids parts) parts

/-- The multipart content-type decision of `message` (part_013 lines
131-147). -/
def chooseCT (body : List BodyPart) : Str :=
  if body.length = 1 ∧ (body.headD default).isMultipart then (body.headD default).ct
  else if body.length > 2 then str "multipart/mixed"
  else if body.any (fun p => ¬ p.isTextPlain ∧ ¬ p.isTextHTML ∧ p.ct ≠ str "multipart/related")
    then str "multipart/mixed"
    else str "multipart/alternative"

/-- `writeRcpt` (part_004 lines 83-95): nothing for an empty list, else a
single header line with comma-separated rendered addresses. -/
def intercalateComma : List Str → Str
  | [] => []
  | [x] => x
  | x :: rest => x ++ str ", " ++ intercalateComma rest

def writeRcpt (key : Str) (addrs : List Address) : Str :=
  if addrs = [] then []
  else canonicalMIMEHeaderKey key ++ str ": " ++
    intercalateComma (addrs.map addrString) ++ crlf

/-- The `mail.Address` of a recipient part. -/
def RcptPart.addr (r : RcptPart) : Address := { name := r.name, address := r.address }

/-- `message` (part_013 lines 60-167), the builder behind `Message`.  The
injectable clock and random source become the pre-formatted timestamp
`tNow` (`20060102150405.0000` UTC format), the `Date` header value `tDate`
(RFC 1123-Z format) and the random value `rnd`; the injectable
`testBoundary` becomes `tb` (assumed set, as in the deterministic tests; the
production path uses a random boundary drawn from the same valid set).
Returns the message bytes and the flattened recipient list, or the first
error; the Go function returns `(nil, nil, err)` in every error case. -/
def message (tNow tDate : Str) (rnd : Nat) (tb : Str)
    (subject : Str) (fromA : Address) (parts : List Part) :
    Except Str (Str × List Str) :=
  match firstError parts with
  | some ie => .error (str "blackmail.Message part " ++ str (toString (ie.1 + 1)) ++
      str ": " ++ ie.2)
  | none =>
  let brh := splitParts parts
  let body := brh.1
  let rcpt := brh.2.1
  if rcpt.isEmpty then .error (str "blackmail.Message: need at least one recipient")
  else if body.isEmpty then .error (str "blackmail.Message: need at least one body part")
  else
    let toList := rcpt.map (fun r => r.address)
    let toL := (rcpt.filter (fun r => r.kind = str "to")).map RcptPart.addr
    let ccL := (rcpt.filter (fun r => r.kind = str "cc")).map RcptPart.addr
    let bccL := (rcpt.filter (fun r => r.kind = str "bcc")).map RcptPart.addr
    let hFrom := writeRcpt (str "From") [fromA]
    let hTo := writeRcpt (str "To") toL
    let hCc := writeRcpt (str "Cc") ccL
    let dt := if toL = [] ∧ bccL ≠ [] then
        brh.2.2.writeDefault (str "To") (str "undisclosed-recipients:;")
      else ([], brh.2.2)
    let msgId := str "<blackmail-" ++ tNow ++ str "-" ++ base36 rnd ++ str "@" ++
      afterFirstAt fromA.address ++ str ">"
    let dm := dt.2.writeDefault (str "Message-Id") msgId
    let dd := dm.2.writeDefault (str "Date") tDate
    let ds := dd.2.writeDefault (str "Subject") subject
    let hUser := ds.2.writeH
    let head := hFrom ++ hTo ++ hCc ++ dt.1 ++ dm.1 ++ dd.1 ++ ds.1 ++ hUser
    if body.length = 1 ∧ (body.headD default).isText then
      let p := body.headD default
      let ctcte := p.cte
      let out := head ++ str "Content-Type: " ++ ctcte.1 ++ crlf ++
        str "Content-Transfer-Encoding: " ++ ctcte.2 ++ crlf ++ crlf ++
        bodyWriterOut p.isText p.body
      .ok (out, toList)
    else
      let ct := chooseCT body
      match (if tb ≠ [] then setBoundaryErr tb else none) with
      | some e => .error (str "blackmail.Message: " ++ e)
      | none =>
          let bm := bodyMIME tb tb false body
          match bm.2.2 with
          | some e => .error (str "blackmail.Message: " ++ e)
          | none =>
              let out := head ++ str "Mime-Version: 1.0" ++ crlf ++
                str "Content-Type: " ++ ct ++ str ";" ++ crlf ++
                str "\tboundary=\"" ++ tb ++ str "\"" ++ crlf ++ crlf ++
                bm.1 ++ multipartClose tb
              .ok (out, toList)

/-! ### Claim C2: error propagation -/

theorem firstErrorAux_append (i : Nat) (pre : List Part)
    (hpre : ∀ q ∈ pre, q.errorOf = none) (p : Part) (e : Str)
    (hp : p.errorOf = some e) (post : List Part) :
    firstErrorAux i (pre ++ p :: post) = some (i + pre.length, e) := by
  induction pre generalizing i with
  | nil => simp [firstErrorAux, hp]
  | cons q qs ih =>
      have hq : q.errorOf = none := hpre q (by simp)
      simp only [List.cons_append, firstErrorAux, hq, List.append_eq]
      rw [ih (i + 1) (fun r hr => hpre r (by simp [hr]))]
      simp only [List.length_cons]
      have harith : i + 1 + qs.length = i + (qs.length + 1) := by omega
      rw [harith]

/-- C2: if any part carries a non-nil stored construction error, `message`
returns the error of the first such part in call order, wrapped with its
1-based position, before any other validation or output (the Go function
returns nil message bytes and a nil recipient list alongside the error,
which the error constructor of this embedding carries no payload for); the
empty-recipient and empty-body checks are never reached. -/
theorem C2_first_part_error (tNow tDate : Str) (rnd : Nat) (tb : Str)
    (subject : Str) (fromA : Address) (pre : List Part) (p : Part) (post : List Part)
    (e : Str) (hpre : ∀ q ∈ pre, q.errorOf = none) (hp : p.errorOf = some e) :
    message tNow tDate rnd tb subject fromA (pre ++ p :: post) =
      .error (str "blackmail.Message part " ++ str (toString (pre.length + 1)) ++
        str ": " ++ e) := by
  unfold message firstError
  rw [firstErrorAux_append 0 pre hpre p e hp post]
  simp

/-- Witness for C2: a header part built from an odd key/value list carries a
construction error which `message` reports with its 1-based position,
regardless of the otherwise-valid recipient. -/
theorem C2_first_part_error_witness :
    ((∀ q ∈ [Part.rcpt { err := none, kind := str "to", name := [], address := str "b@y.com" }],
        q.errorOf = none) ∧
     (Part.headers (headersFromList [str "X-Only-Key"])).errorOf =
        some (str "blackmail.Headers: odd argument count")) ∧
    message (str "T") (str "D") 0 (str "B") (str "S")
        { name := [], address := str "a@x.com" }
        ([Part.rcpt { err := none, kind := str "to", name := [], address := str "b@y.com" }] ++
          Part.headers (headersFromList [str "X-Only-Key"]) :: []) =
      .error (str "blackmail.Message part " ++ str (toString (1 + 1)) ++ str ": " ++
        str "blackmail.Headers: odd argument count") :=
  ⟨⟨by decide, by decide⟩,
   C2_first_part_error (str "T") (str "D") 0 (str "B") (str "S")
     { name := [], address := str "a@x.com" }
     [Part.rcpt { err := none, kind := str "to", name := [], address := str "b@y.com" }]
     (Part.headers (headersFromList [str "X-Only-Key"])) []
     (str "blackmail.Headers: odd argument count")
     (by decide) (by decide)⟩

/-! ### Claim C6: CID placeholder substitution -/

/-- All match positions of `pat` inside `s` (a decidable description of its
occurrences). -/
def occIdxs (pat s : List Char) : List Nat :=
  (List.range (s.length + 1)).filter (fun i => pat.isPrefixOf (s.drop i))

theorem decomp_mem_occIdxs {pat x y : List Char} :
    x.length ∈ occIdxs pat (x ++ pat ++ y) := by
  simp only [occIdxs, List.mem_filter, List.mem_range]
  constructor
  · simp only [List.length_append]
    omega
  · rw [List.append_assoc, List.drop_left]
    exact List.isPrefixOf_iff_prefix.mpr (List.prefix_append pat y)

theorem no_decomp_of_occIdxs_nil {pat s : List Char} (h : occIdxs pat s = []) :
    ∀ x y, s ≠ x ++ pat ++ y := by
  intro x y hs
  subst hs
  have := @decomp_mem_occIdxs pat x y
  rw [h] at this
  simp at this

theorem replaceAll_no_occur {s pat rep : List Char} (hne : ∀ x y, s ≠ x ++ pat ++ y) :
    replaceAllL s pat rep = s := by
  induction s with
  | nil => rw [replaceAllL]
  | cons c rest ih =>
      rw [replaceAllL]
      rw [dif_neg]
      · congr 1
        exact ih (fun x y hxy => hne (c :: x) y (by simp [hxy]))
      · rintro ⟨hp, hpf⟩
        obtain ⟨t, ht⟩ := List.isPrefixOf_iff_prefix.mp hpf
        exact hne [] t (by simp [ht.symm])

theorem replaceAll_unique {A B pat rep : List Char} (hpat : pat ≠ [])
    (honly : ∀ x y, A ++ pat ++ B = x ++ pat ++ y → x = A) :
    replaceAllL (A ++ pat ++ B) pat rep = A ++ rep ++ B := by
  induction A with
  | nil =>
      simp only [List.nil_append] at honly ⊢
      rcases hp : pat with _ | ⟨c, pat'⟩
      · exact absurd hp hpat
      · subst hp
        have hBno : ∀ x y, B ≠ x ++ (c :: pat') ++ y := by
          intro x y hB
          have h1 := honly ((c :: pat') ++ x) y (by rw [hB]; simp)
          have hlen := congrArg List.length h1
          simp at hlen
        have hs : (c :: pat') ++ B = c :: (pat' ++ B) := by simp
        rw [hs, replaceAllL]
        rw [dif_pos ⟨by simp, List.isPrefixOf_iff_prefix.mpr ⟨B, by simp⟩⟩]
        have hdrop : (c :: (pat' ++ B)).drop (c :: pat').length = B := by
          rw [← hs]
          exact List.drop_left (c :: pat') B
        rw [hdrop, replaceAll_no_occur hBno]
  | cons a A' ih =>
      have hstep : (a :: A') ++ pat ++ B = a :: (A' ++ pat ++ B) := by simp
      rw [hstep, replaceAllL]
      rw [dif_neg]
      · have honly' : ∀ x y, A' ++ pat ++ B = x ++ pat ++ y → x = A' := by
          intro x y hxy
          have h1 := honly (a :: x) y (by simp [hxy])
          have h2 : a :: x = a :: A' := h1
          exact (List.cons.injEq a x a A').mp h2 |>.2
        rw [ih honly']
        simp
      · rintro ⟨hp, hpf⟩
        obtain ⟨t, ht⟩ := List.isPrefixOf_iff_prefix.mp hpf
        have h1 := honly [] t (by simp only [List.nil_append]; rw [ht]; simp)
        have hlen := congrArg List.length h1
        simp at hlen

/-- Right-associated restatement of `replaceAll_unique`. -/
theorem replaceAll_unique_r {A B2 pat rep : List Char} (hpat : pat ≠ [])
    (honly : ∀ x y, A ++ (pat ++ B2) = x ++ (pat ++ y) → x = A) :
    replaceAllL (A ++ (pat ++ B2)) pat rep = A ++ (rep ++ B2) := by
  have h2 : ∀ x y, A ++ pat ++ B2 = x ++ pat ++ y → x = A := fun x y hxy =>
    honly x y (by simpa [List.append_assoc] using hxy)
  have h3 := @replaceAll_unique _ _ _ rep hpat h2
  simpa [List.append_assoc] using h3

theorem honly_of_occIdxs {A B2 pat : List Char}
    (h : occIdxs pat (A ++ (pat ++ B2)) = [A.length]) :
    ∀ x y, A ++ (pat ++ B2) = x ++ (pat ++ y) → x = A := by
  intro x y hxy
  have hm : x.length ∈ occIdxs pat (A ++ (pat ++ B2)) := by
    rw [hxy]
    have hd := @decomp_mem_occIdxs pat x y
    simpa [List.append_assoc] using hd
  rw [h] at hm
  simp at hm
  exact (List.append_inj hxy.symm (by omega)).1

theorem substCidsAux_append (j0 : Nat) (pre rest : List Str) (body : Str) :
    substCidsAux j0 (pre ++ rest) body =
      substCidsAux (j0 + pre.length) rest (substCidsAux j0 pre body) := by
  induction pre generalizing j0 body with
  | nil => simp [substCidsAux]
  | cons c cs ih =>
      simp only [List.cons_append, substCidsAux, List.append_eq, List.length_cons]
      rw [ih]
      have harith : j0 + 1 + cs.length = j0 + (cs.length + 1) := by omega
      rw [harith]

theorem substCidsAux_no_occur (cs : List Str) (j0 : Nat) (body : Str)
    (h : ∀ j, j0 ≤ j → j < j0 + cs.length → occIdxs (phStr j) body = []) :
    substCidsAux j0 cs body = body := by
  induction cs generalizing j0 with
  | nil => rfl
  | cons c cs ih =>
      have h0 : occIdxs (phStr j0) body = [] := h j0 (le_refl _) (by simp)
      show substCidsAux (j0 + 1) cs (replaceAllL body (phStr j0) (repStr c)) = body
      rw [replaceAll_no_occur (no_decomp_of_occIdxs_nil h0)]
      exact ih (j0 + 1) (fun j hj1 hj2 => h j (by omega)
        (by simp only [List.length_cons]; omega))

theorem phStr_ne_nil (n : Nat) : phStr n ≠ [] := by
  simp [phStr, str]

/-- C6: for a `text/html` body containing the placeholders
`src="cid:blackmail:k1"` and `src="cid:blackmail:k2"` (k1 < k2) among N
sibling Content-IDs, each placeholder is textually replaced, before
encoding, by `src="cid:C"` with C the correspondingly-indexed Content-ID in
encounter order — never swapped.  The occurrence hypotheses state that each
placeholder occurs exactly once and that no other placeholder pattern
occurs at any stage, which holds for the generated Content-IDs (they never
contain `cid:blackmail:`). -/
theorem C6_cid_substitution (cids : List Str) (k1 k2 : Nat) (A B C : Str)
    (hk1 : 1 ≤ k1) (hk12 : k1 < k2) (hk2 : k2 ≤ cids.length)
    (h01 : occIdxs (phStr k1) (A ++ (phStr k1 ++ (B ++ (phStr k2 ++ C)))) = [A.length])
    (h02 : occIdxs (phStr k2)
        ((A ++ (repStr (cids.getD (k1 - 1) []) ++ B)) ++ (phStr k2 ++ C)) =
      [(A ++ (repStr (cids.getD (k1 - 1) []) ++ B)).length])
    (hothers : ∀ j, 1 ≤ j → j ≤ cids.length → j ≠ k1 → j ≠ k2 →
      occIdxs (phStr j) (A ++ (phStr k1 ++ (B ++ (phStr k2 ++ C)))) = [] ∧
      occIdxs (phStr j)
        ((A ++ (repStr (cids.getD (k1 - 1) []) ++ B)) ++ (phStr k2 ++ C)) = [] ∧
      occIdxs (phStr j)
        (A ++ (repStr (cids.getD (k1 - 1) []) ++
          (B ++ (repStr (cids.getD (k2 - 1) []) ++ C)))) = []) :
    substCids cids (A ++ (phStr k1 ++ (B ++ (phStr k2 ++ C)))) =
      A ++ (repStr (cids.getD (k1 - 1) []) ++
        (B ++ (repStr (cids.getD (k2 - 1) []) ++ C))) := by
  have hlen1 : k1 - 1 < cids.length := by omega
  have hlen2 : k2 - 1 < cids.length := by omega
  set c1 := cids.getD (k1 - 1) [] with hc1
  set c2 := cids.getD (k2 - 1) [] with hc2
  set html0 := A ++ (phStr k1 ++ (B ++ (phStr k2 ++ C))) with hh0
  set html1 := (A ++ (repStr c1 ++ B)) ++ (phStr k2 ++ C) with hh1
  set html2 := A ++ (repStr c1 ++ (B ++ (repStr c2 ++ C))) with hh2
  -- split the cid list around positions k1 and k2
  have e1 : cids.drop (k1 - 1) = c1 :: cids.drop k1 := by
    rw [hc1, List.getD_eq_getElem cids [] hlen1]
    rw [List.drop_eq_getElem_cons hlen1]
    have h6 : k1 - 1 + 1 = k1 := by omega
    rw [h6]
  have e2 : cids.drop (k2 - 1) = c2 :: cids.drop k2 := by
    rw [hc2, List.getD_eq_getElem cids [] hlen2]
    rw [List.drop_eq_getElem_cons hlen2]
    have h6 : k2 - 1 + 1 = k2 := by omega
    rw [h6]
  have e3 : (cids.drop k1).take (k2 - 1 - k1) ++ (c2 :: cids.drop k2) = cids.drop k1 := by
    rw [← e2]
    have h4 : (cids.drop k1).drop (k2 - 1 - k1) = cids.drop (k2 - 1) := by
      rw [List.drop_drop]
      congr 1
      omega
    rw [← h4]
    exact List.take_append_drop _ _
  have hsplit : cids = cids.take (k1 - 1) ++
      (c1 :: ((cids.drop k1).take (k2 - 1 - k1) ++ (c2 :: cids.drop k2))) := by
    rw [e3, ← e1, List.take_append_drop]
  have hlt1 : (cids.take (k1 - 1)).length = k1 - 1 := by
    rw [List.length_take]
    omega
  have hlt2 : ((cids.drop k1).take (k2 - 1 - k1)).length = k2 - 1 - k1 := by
    rw [List.length_take, List.length_drop]
    omega
  -- phase 1: indices below k1 leave html0 unchanged
  unfold substCids
  rw [hsplit, substCidsAux_append]
  rw [substCidsAux_no_occur (cids.take (k1 - 1)) 1 html0 ?hphase1]
  case hphase1 =>
    intro j hj1 hj2
    rw [hlt1] at hj2
    exact (hothers j hj1 (by omega) (by omega) (by omega)).1
  -- step k1
  rw [hlt1]
  have hk1eq : 1 + (k1 - 1) = k1 := by omega
  rw [hk1eq]
  show substCidsAux (k1 + 1) _ (replaceAllL html0 (phStr k1) (repStr c1)) = html2
  have hrepl1 : replaceAllL html0 (phStr k1) (repStr c1) = html1 := by
    rw [hh0]
    rw [replaceAll_unique_r (phStr_ne_nil k1) (honly_of_occIdxs h01)]
    rw [hh1]
    simp [List.append_assoc]
  rw [hrepl1, substCidsAux_append]
  -- phase 2: indices strictly between k1 and k2 leave html1 unchanged
  rw [substCidsAux_no_occur ((cids.drop k1).take (k2 - 1 - k1)) (k1 + 1) html1 ?hphase2]
  case hphase2 =>
    intro j hj1 hj2
    rw [hlt2] at hj2
    exact (hothers j (by omega) (by omega) (by omega) (by omega)).2.1
  -- step k2
  rw [hlt2]
  have hk2eq : k1 + 1 + (k2 - 1 - k1) = k2 := by omega
  rw [hk2eq]
  show substCidsAux (k2 + 1) _ (replaceAllL html1 (phStr k2) (repStr c2)) = html2
  have hrepl2 : replaceAllL html1 (phStr k2) (repStr c2) = html2 := by
    rw [hh1]
    rw [replaceAll_unique_r (phStr_ne_nil k2) (honly_of_occIdxs h02)]
    rw [hh2]
    simp [List.append_assoc]
  rw [hrepl2]
  -- phase 3: indices above k2 leave html2 unchanged
  apply substCidsAux_no_occur
  intro j hj1 hj2
  rw [List.length_drop] at hj2
  exact (hothers j (by omega) (by omega) (by omega) (by omega)).2.2

/-- Witness for C6: an HTML body referencing `cid:blackmail:1` and
`cid:blackmail:2` followed by two inline-image Content-IDs has each
placeholder replaced by the correspondingly-ordered Content-ID. -/
theorem C6_cid_substitution_witness :
    substCids [str "img1@blackmail", str "img2@blackmail"]
        (str "<p><img " ++ (phStr 1 ++ (str "> and <img " ++ (phStr 2 ++ str "></p>")))) =
      str "<p><img " ++
        (repStr ([str "img1@blackmail", str "img2@blackmail"].getD 0 []) ++
          (str "> and <img " ++
            (repStr ([str "img1@blackmail", str "img2@blackmail"].getD 1 []) ++
              str "></p>"))) :=
  C6_cid_substitution [str "img1@blackmail", str "img2@blackmail"] 1 2
    (str "<p><img ") (str "> and <img ") (str "></p>")
    (by decide) (by decide) (by decide)
    (by decide) (by decide)
    (by intro j h1 h2 h3 h4; simp at h2; omega)

/-! ### Shape of the builder's success paths -/

/-- The flattened recipient list returned by `message`. -/
def msgToList (parts : List Part) : List Str :=
  ((splitParts parts).2.1).map (fun r => r.address)

/-- The header section written by `message` (its address-header and
other-header phases, part_013 lines 78-113), as one byte string. -/
def msgHeadStr (tNow tDate : Str) (rnd : Nat) (subject : Str) (fromA : Address)
    (parts : List Part) : Str :=
  let brh := splitParts parts
  let rcpt := brh.2.1
  let toL := (rcpt.filter (fun r => r.kind = str "to")).map RcptPart.addr
  let ccL := (rcpt.filter (fun r => r.kind = str "cc")).map RcptPart.addr
  let bccL := (rcpt.filter (fun r => r.kind = str "bcc")).map RcptPart.addr
  let hFrom := writeRcpt (str "From") [fromA]
  let hTo := writeRcpt (str "To") toL
  let hCc := writeRcpt (str "Cc") ccL
  let dt := if toL = [] ∧ bccL ≠ [] then
      brh.2.2.writeDefault (str "To") (str "undisclosed-recipients:;")
    else ([], brh.2.2)
  let msgId := str "<blackmail-" ++ tNow ++ str "-" ++ base36 rnd ++ str "@" ++
    afterFirstAt fromA.address ++ str ">"
  let dm := dt.2.writeDefault (str "Message-Id") msgId
  let dd := dm.2.writeDefault (str "Date") tDate
  let ds := dd.2.writeDefault (str "Subject") subject
  let hUser := ds.2.writeH
  hFrom ++ hTo ++ hCc ++ dt.1 ++ dm.1 ++ dd.1 ++ ds.1 ++ hUser

theorem isEmpty_false_of_ne_nil {α : Type} {l : List α} (h : l ≠ []) :
    l.isEmpty = false := by
  cases l
  · exact absurd rfl h
  · rfl

set_option maxHeartbeats 1000000 in
/-- The single-text shortcut path of `message` (part_013 lines 117-129). -/
theorem message_ok_single (tNow tDate : Str) (rnd : Nat) (tb subject : Str)
    (fromA : Address) (parts : List Part)
    (hfe : firstError parts = none)
    (hr : (splitParts parts).2.1 ≠ [])
    (hb : (splitParts parts).1 ≠ [])
    (hshort : (splitParts parts).1.length = 1 ∧
      ((splitParts parts).1.headD default).isText = true) :
    message tNow tDate rnd tb subject fromA parts =
      .ok (msgHeadStr tNow tDate rnd subject fromA parts ++
        (str "Content-Type: " ++ ((splitParts parts).1.headD default).cte.1 ++ crlf ++
         str "Content-Transfer-Encoding: " ++ ((splitParts parts).1.headD default).cte.2 ++
         crlf ++ crlf ++
         bodyWriterOut ((splitParts parts).1.headD default).isText
           ((splitParts parts).1.headD default).body),
        msgToList parts) := by
  unfold message
  rw [hfe]
  simp only [isEmpty_false_of_ne_nil hr, isEmpty_false_of_ne_nil hb,
    Bool.false_eq_true, if_false]
  rw [if_pos hshort]
  simp [msgHeadStr, msgToList, List.append_assoc]

set_option maxHeartbeats 1000000 in
/-- The multipart path of `message` (part_013 lines 131-167). -/
theorem message_ok_multi (tNow tDate : Str) (rnd : Nat) (tb subject : Str)
    (fromA : Address) (parts : List Part)
    (hfe : firstError parts = none)
    (hr : (splitParts parts).2.1 ≠ [])
    (hb : (splitParts parts).1 ≠ [])
    (hshort : ¬ ((splitParts parts).1.length = 1 ∧
      ((splitParts parts).1.headD default).isText = true))
    (htb : tb ≠ [])
    (hbok : setBoundaryErr tb = none)
    (hbm : (bodyMIME tb tb false (splitParts parts).1).2.2 = none) :
    message tNow tDate rnd tb subject fromA parts =
      .ok (msgHeadStr tNow tDate rnd subject fromA parts ++
        (str "Mime-Version: 1.0" ++ crlf ++
         str "Content-Type: " ++ chooseCT (splitParts parts).1 ++ str ";" ++ crlf ++
         str "\tboundary=\"" ++ tb ++ str "\"" ++ crlf ++ crlf ++
         (bodyMIME tb tb false (splitParts parts).1).1 ++ multipartClose tb),
        msgToList parts) := by
  unfold message
  rw [hfe]
  simp only [isEmpty_false_of_ne_nil hr, isEmpty_false_of_ne_nil hb,
    Bool.false_eq_true, if_false]
  rw [if_neg hshort]
  rw [if_pos htb, hbok]
  simp only []
  rw [hbm]
  simp [msgHeadStr, msgToList, List.append_assoc]

/-! ### Claim C1: multipart content-type selection -/

theorem firstErrorAux_none (i : Nat) (parts : List Part)
    (h : ∀ q ∈ parts, q.errorOf = none) : firstErrorAux i parts = none := by
  induction parts generalizing i with
  | nil => rfl
  | cons q qs ih =>
      have hq : q.errorOf = none := h q (by simp)
      simp only [firstErrorAux, hq]
      exact ih (i + 1) (fun r hr => h r (by simp [hr]))

theorem bodyMIMEOne_ok (tb wB : Str) (wLast : Bool) (cids : List Str) (p : BodyPart)
    (h2 : setBoundaryErr (tb ++ str "222") = none) :
    (bodyMIMEOne tb wB wLast cids p).2.2 = none := by
  match p with
  | .mk perr pparts pct pbody pfn pat pil pcid =>
      rw [bodyMIMEOne]
      by_cases hm : (BodyPart.mk perr pparts pct pbody pfn pat pil pcid).isMultipart = true
      · simp only [hm, if_true, h2]
      · simp only [hm, Bool.false_eq_true, if_false]

theorem bodyMIMEList_ok (tb wB : Str) (wLast : Bool) (cids : List Str)
    (parts : List BodyPart) (h2 : setBoundaryErr (tb ++ str "222") = none) :
    (bodyMIMEList tb wB wLast cids parts).2.2 = none := by
  induction parts generalizing wLast with
  | nil => rfl
  | cons p rest ih =>
      rw [bodyMIMEList]
      simp only [bodyMIMEOne_ok tb wB wLast cids p h2]
      exact ih _

/-- C1: for every error-free part list whose body parts do not take the
single-text shortcut, the builder succeeds (given a valid injected
boundary) and emits the top-level Content-Type chosen as the claim states:
a lone multipart body part's content type is hoisted, more than two body
parts give `multipart/mixed`, and exactly two give `multipart/alternative`
unless some part is neither `text/plain`, `text/html` nor
`multipart/related` (the source's own content-type predicates), in which
case `multipart/mixed`. -/
theorem C1_multipart_selection (tNow tDate : Str) (rnd : Nat) (tb subject : Str)
    (fromA : Address) (parts : List Part)
    (herr : ∀ q ∈ parts, q.errorOf = none)
    (hr : (splitParts parts).2.1 ≠ [])
    (hb : (splitParts parts).1 ≠ [])
    (hshort : ¬ ((splitParts parts).1.length = 1 ∧
      ((splitParts parts).1.headD default).isText = true))
    (htb : tb ≠ []) (hbok : setBoundaryErr tb = none)
    (hbok2 : setBoundaryErr (tb ++ str "222") = none) :
    (∃ out rl, message tNow tDate rnd tb subject fromA parts = .ok (out, rl) ∧
       ∃ a b, out = a ++ (str "Content-Type: " ++ chooseCT (splitParts parts).1 ++
         str ";" ++ crlf ++ str "\tboundary=\"" ++ tb ++ str "\"" ++ crlf) ++ b) ∧
    (((splitParts parts).1.length = 1 ∧
        ((splitParts parts).1.headD default).isMultipart = true) →
      chooseCT (splitParts parts).1 = ((splitParts parts).1.headD default).ct) ∧
    ((splitParts parts).1.length > 2 →
      chooseCT (splitParts parts).1 = str "multipart/mixed") ∧
    (((splitParts parts).1.length = 2 ∧
        (∃ p ∈ (splitParts parts).1, p.isTextPlain = false ∧ p.isTextHTML = false ∧
          p.ct ≠ str "multipart/related")) →
      chooseCT (splitParts parts).1 = str "multipart/mixed") ∧
    (((splitParts parts).1.length = 2 ∧
        (∀ p ∈ (splitParts parts).1, p.isTextPlain = true ∨ p.isTextHTML = true ∨
          p.ct = str "multipart/related")) →
      chooseCT (splitParts parts).1 = str "multipart/alternative") := by
  have hfe : firstError parts = none := firstErrorAux_none 0 parts herr
  have hbm : (bodyMIME tb tb false (splitParts parts).1).2.2 = none := by
    unfold bodyMIME
    exact bodyMIMEList_ok tb tb false _ _ hbok2
  refine ⟨?_, ?_, ?_, ?_, ?_⟩
  · refine ⟨_, _, message_ok_multi tNow tDate rnd tb subject fromA parts hfe hr hb
      hshort htb hbok hbm, ?_⟩
    refine ⟨msgHeadStr tNow tDate rnd subject fromA parts ++
        (str "Mime-Version: 1.0" ++ crlf),
      crlf ++ (bodyMIME tb tb false (splitParts parts).1).1 ++ multipartClose tb, ?_⟩
    simp [List.append_assoc]
  · rintro ⟨h1, h2⟩
    unfold chooseCT
    rw [if_pos ⟨h1, h2⟩]
  · intro h1
    unfold chooseCT
    rw [if_neg (by rintro ⟨hl, -⟩; omega), if_pos h1]
  · rintro ⟨h1, p, hp, h3, h4, h5⟩
    unfold chooseCT
    rw [if_neg (by rintro ⟨hl, -⟩; omega), if_neg (by omega)]
    rw [if_pos]
    rw [List.any_eq_true]
    refine ⟨p, hp, ?_⟩
    simp [h3, h4, h5]
  · rintro ⟨h1, hall⟩
    unfold chooseCT
    rw [if_neg (by rintro ⟨hl, -⟩; omega), if_neg (by omega)]
    rw [if_neg]
    rw [List.any_eq_true]
    rintro ⟨p, hp, hcond⟩
    rcases hall p hp with h | h | h <;> simp [h] at hcond

/-- A concrete part list for the C1 witness: one recipient, one
`text/plain` body and one `application/octet-stream` attachment. -/
def demoParts1 : List Part :=
  [Part.rcpt { err := none, kind := str "to", name := [], address := str "b@y.com" },
   Part.body (.mk none [] (str "text/plain") (str "hi") [] false false []),
   Part.body (.mk none [] (str "application/octet-stream") (str "PK") (str "f.zip")
     true false [])]

/-- Witness for C1: a text part plus an attachment gives `multipart/mixed`
in the emitted top-level Content-Type. -/
theorem C1_multipart_selection_witness :
    (∃ out rl, message (str "T") (str "D") 0 (str "BNDRY") (str "S")
        { name := [], address := str "a@x.com" } demoParts1 = .ok (out, rl) ∧
       ∃ a b, out = a ++ (str "Content-Type: " ++ chooseCT (splitParts demoParts1).1 ++
         str ";" ++ crlf ++ str "\tboundary=\"" ++ str "BNDRY" ++ str "\"" ++ crlf) ++ b) ∧
    (((splitParts demoParts1).1.length = 1 ∧
        ((splitParts demoParts1).1.headD default).isMultipart = true) →
      chooseCT (splitParts demoParts1).1 = ((splitParts demoParts1).1.headD default).ct) ∧
    ((splitParts demoParts1).1.length > 2 →
      chooseCT (splitParts demoParts1).1 = str "multipart/mixed") ∧
    (((splitParts demoParts1).1.length = 2 ∧
        (∃ p ∈ (splitParts demoParts1).1, p.isTextPlain = false ∧ p.isTextHTML = false ∧
          p.ct ≠ str "multipart/related")) →
      chooseCT (splitParts demoParts1).1 = str "multipart/mixed") ∧
    (((splitParts demoParts1).1.length = 2 ∧
        (∀ p ∈ (splitParts demoParts1).1, p.isTextPlain = true ∨ p.isTextHTML = true ∨
          p.ct = str "multipart/related")) →
      chooseCT (splitParts demoParts1).1 = str "multipart/alternative") :=
  C1_multipart_selection (str "T") (str "D") 0 (str "BNDRY") (str "S")
    { name := [], address := str "a@x.com" } demoParts1
    (by decide) (by decide)
    (fun h => absurd (congrArg List.length h) (by decide))
    (by decide) (by decide) (by decide) (by decide)

/-! ### Header-section analysis

A message's header section is the run of CRLF-terminated lines before the
first blank line; these observation functions split the emitted bytes
accordingly. -/

/-- Split a byte string at each CRLF pair. -/
def splitCRLF : List Char → List (List Char)
  | [] => [[]]
  | [c] => [[c]]
  | c1 :: c2 :: rest =>
      if c1 = '\r' ∧ c2 = '\n' then [] :: splitCRLF rest
      else
        match splitCRLF (c2 :: rest) with
        | [] => [[c1]]
        | l :: ls => (c1 :: l) :: ls

/-- Join lines with CRLF terminators. -/
def joinCRLF (ls : List Str) : Str := (ls.map (fun l => l ++ crlf)).flatten

/-- The header section: the CRLF lines before the first empty line. -/
def headerLines (s : Str) : List Str :=
  (splitCRLF s).takeWhile (fun l => l ≠ [])

theorem joinCRLF_append (xs ys : List Str) :
    joinCRLF (xs ++ ys) = joinCRLF xs ++ joinCRLF ys := by
  simp [joinCRLF]

theorem splitCRLF_line (line rest : Str) (h : '\r' ∉ line) :
    splitCRLF (line ++ crlf ++ rest) = line :: splitCRLF rest := by
  induction line with
  | nil =>
      show splitCRLF ('\r' :: '\n' :: rest) = [] :: splitCRLF rest
      rw [splitCRLF]
      simp
  | cons c cs ih =>
      have hc : c ≠ '\r' := fun hc => h (by simp [hc])
      have ih' := ih (fun hm => h (by simp [hm]))
      rcases cs with _ | ⟨c2, cs'⟩
      · show splitCRLF (c :: '\r' :: '\n' :: rest) = [c] :: splitCRLF rest
        rw [splitCRLF]
        rw [if_neg (by rintro ⟨h1, -⟩; exact hc h1)]
        have h2 : splitCRLF ('\r' :: '\n' :: rest) = [] :: splitCRLF rest := by
          rw [splitCRLF]; simp
        rw [h2]
      · show splitCRLF (c :: (c2 :: cs' ++ crlf ++ rest)) = (c :: c2 :: cs') :: splitCRLF rest
        have hshape : c :: (c2 :: cs' ++ crlf ++ rest) =
            c :: c2 :: (cs' ++ crlf ++ rest) := by simp
        rw [hshape, splitCRLF]
        rw [if_neg (by rintro ⟨h1, -⟩; exact hc h1)]
        have hshape2 : c2 :: (cs' ++ crlf ++ rest) = c2 :: cs' ++ crlf ++ rest := by simp
        rw [hshape2, ih']

theorem splitCRLF_joined (ls : List Str) (rest : Str) (h : ∀ l ∈ ls, '\r' ∉ l) :
    splitCRLF (joinCRLF ls ++ rest) = ls ++ splitCRLF rest := by
  induction ls with
  | nil => simp [joinCRLF]
  | cons l ls' ih =>
      have hshape : joinCRLF (l :: ls') ++ rest = l ++ crlf ++ (joinCRLF ls' ++ rest) := by
        simp [joinCRLF, List.append_assoc]
      rw [hshape, splitCRLF_line l _ (h l (by simp))]
      rw [ih (fun x hx => h x (by simp [hx]))]
      rfl

theorem takeWhile_append_stop {α : Type} (p : α → Bool) (xs : List α) (y : α) (ys : List α)
    (hxs : ∀ x ∈ xs, p x = true) (hy : p y = false) :
    (xs ++ y :: ys).takeWhile p = xs := by
  induction xs with
  | nil => simp [List.takeWhile_cons, hy]
  | cons x xs' ih =>
      simp only [List.cons_append, List.takeWhile_cons, hxs x (by simp)]
      rw [ih (fun z hz => hxs z (by simp [hz]))]
      simp

/-- The header section of `lines ++ blank ++ body` is exactly `lines`. -/
theorem headerLines_closed (ls : List Str) (rest : Str)
    (hCR : ∀ l ∈ ls, '\r' ∉ l) (hne : ∀ l ∈ ls, l ≠ []) :
    headerLines (joinCRLF ls ++ (crlf ++ rest)) = ls := by
  unfold headerLines
  have h1 : joinCRLF ls ++ (crlf ++ rest) = joinCRLF ls ++ (([] : Str) ++ crlf ++ rest) := by
    simp
  rw [h1, splitCRLF_joined ls _ hCR, splitCRLF_line [] rest (by simp)]
  exact takeWhile_append_stop _ ls [] _ (fun x hx => by simpa using hne x hx) (by simp)

/-! ### No emitted header line contains a carriage return -/

theorem getD_not_mem {α : Type} [DecidableEq α] {l : List α} {d x : α}
    (hl : x ∉ l) (hd : x ≠ d) (n : Nat) : l.getD n d ≠ x := by
  rw [List.getD_eq_getElem?_getD]
  cases h : l[n]? with
  | none =>
      simp only [Option.getD_none]
      exact fun he => hd he.symm
  | some c =>
      simp only [Option.getD_some]
      intro he
      exact hl (he ▸ List.getElem?_mem h)

theorem hexDigitUpper_ne_cr (n : Nat) : hexDigitUpper n ≠ '\r' :=
  getD_not_mem (by decide) (by decide) n

theorem b64Char_ne_cr (n : Nat) : b64Char n ≠ '\r' :=
  getD_not_mem (by decide) (by decide) n

theorem b64EncodeBytes_noCR (bs : List Nat) : '\r' ∉ b64EncodeBytes bs := by
  induction bs using b64EncodeBytes.induct with
  | case1 => simp [b64EncodeBytes]
  | case2 a =>
      simp only [b64EncodeBytes, List.mem_cons]
      rintro (h | h | h | h | h) <;>
        first
        | exact b64Char_ne_cr _ h.symm
        | simp at h
  | case3 a b =>
      simp only [b64EncodeBytes, List.mem_cons]
      rintro (h | h | h | h | h) <;>
        first
        | exact b64Char_ne_cr _ h.symm
        | simp at h
  | case4 a b c rest ih =>
      simp only [b64EncodeBytes, List.mem_cons]
      rintro (h | h | h | h | h) <;>
        first
        | exact b64Char_ne_cr _ h.symm
        | exact ih h

theorem qEncodeByte_noCR (c : Char) : '\r' ∉ qEncodeByte c := by
  unfold qEncodeByte
  split
  · simp [str]
  · split
    · rename_i h2
      simp only [List.mem_singleton]
      intro he
      subst he
      revert h2
      decide
    · simp only [List.mem_cons, List.mem_singleton]
      rintro (h | h | h | h) <;>
        first
        | simp at h
        | exact hexDigitUpper_ne_cr _ h.symm

theorem qEncode_noCR (v : Str) : '\r' ∉ qEncode v := by
  unfold qEncode
  split
  · intro hmem
    simp only [List.mem_append] at hmem
    rcases hmem with (hmem | hmem) | hmem
    · revert hmem; decide
    · obtain ⟨c, -, hc⟩ := List.mem_flatMap.mp hmem
      exact qEncodeByte_noCR c hc
    · revert hmem; decide
  · rename_i hne
    intro hmem
    have h1 : needsEncoding v = true := by
      unfold needsEncoding
      rw [List.any_eq_true]
      exact ⟨'\r', hmem, by decide⟩
    simp [h1] at hne

theorem quoteString_noCR (s : Str) : '\r' ∉ quoteString s := by
  unfold quoteString
  simp only [List.mem_cons, List.mem_append]
  rintro (h | h | h)
  · simp at h
  · obtain ⟨c, -, hc⟩ := List.mem_flatMap.mp h
    revert hc
    split
    · rename_i hq
      simp only [List.mem_singleton]
      intro he
      subst he
      revert hq
      decide
    · split
      · rename_i hv
        simp only [List.mem_cons, List.mem_singleton]
        rintro (h2 | h2 | h2)
        · simp at h2
        · subst h2; revert hv; decide
        · simp at h2
      · simp
  · simp at h

theorem bEncode_noCR (s : Str) : '\r' ∉ bEncode s := by
  unfold bEncode
  intro hmem
  simp only [List.mem_append] at hmem
  rcases hmem with (hmem | hmem) | hmem
  · revert hmem; decide
  · exact b64EncodeBytes_noCR _ hmem
  · revert hmem; decide

theorem angle_noCR {lq d : Str} (h1 : '\r' ∉ lq) (h2 : '\r' ∉ d) :
    '\r' ∉ ('<' :: (lq ++ ('@' :: (d ++ ['>'])))) := by
  simp only [List.mem_cons, List.mem_append, List.mem_singleton]
  rintro (h | h | h | h | h) <;> first | simp at h | exact h1 h | exact h2 h

theorem namepart_noCR {w s : Str} (hw : '\r' ∉ w) (hs : '\r' ∉ s) :
    '\r' ∉ w ++ (' ' :: s) := by
  simp only [List.mem_append, List.mem_cons]
  rintro (h | h | h)
  · exact hw h
  · simp at h
  · exact hs h

theorem splitAtLastAt_noCR {s l d : Str} (h : '\r' ∉ s)
    (hs : splitAtLastAt s = some (l, d)) : '\r' ∉ l ∧ '\r' ∉ d := by
  unfold splitAtLastAt at hs
  split at hs
  · rw [Option.some.injEq, Prod.mk.injEq] at hs
    obtain ⟨hl, hd⟩ := hs
    subst hl
    subst hd
    constructor
    · exact fun hm => h (List.take_subset _ _ hm)
    · intro hm
      rw [List.mem_reverse] at hm
      have h2 := (List.takeWhile_prefix _).sublist.subset hm
      rw [List.mem_reverse] at h2
      exact h h2
  · simp at hs

theorem addrString_noCR (a : Address) (h : '\r' ∉ a.address) : '\r' ∉ addrString a := by
  unfold addrString
  rcases hsp : splitAtLastAt a.address with _ | ⟨l, d⟩
  · simp only [hsp]
    have hlq : '\r' ∉ (if localNeedsQuote a.address then quoteString a.address
        else a.address) := by
      split
      · exact quoteString_noCR _
      · exact h
    have hS := @angle_noCR _ [] hlq (by simp)
    split
    · exact hS
    · split
      · exact namepart_noCR (quoteString_noCR _) hS
      · split
        · exact namepart_noCR (bEncode_noCR _) hS
        · exact namepart_noCR (qEncode_noCR _) hS
  · simp only [hsp]
    obtain ⟨hl, hd⟩ := splitAtLastAt_noCR h hsp
    have hlq : '\r' ∉ (if localNeedsQuote l then quoteString l else l) := by
      split
      · exact quoteString_noCR _
      · exact hl
    have hS := angle_noCR hlq hd
    split
    · exact hS
    · split
      · exact namepart_noCR (quoteString_noCR _) hS
      · split
        · exact namepart_noCR (bEncode_noCR _) hS
        · exact namepart_noCR (qEncode_noCR _) hS

theorem intercalateComma_noCR (ls : List Str) (h : ∀ l ∈ ls, '\r' ∉ l) :
    '\r' ∉ intercalateComma ls := by
  induction ls with
  | nil => simp [intercalateComma]
  | cons x rest ih =>
      rcases rest with _ | ⟨y, rest'⟩
      · exact h x (by simp)
      · show '\r' ∉ x ++ str ", " ++ intercalateComma (y :: rest')
        simp only [List.mem_append]
        rintro ((hm | hm) | hm)
        · exact h x (by simp) hm
        · revert hm; decide
        · exact ih (fun l hl => h l (by simp at hl ⊢; tauto)) hm

/-! ### The header section as a list of bare lines -/

/-- A header line without its CRLF terminator. -/
def bareLine (k v : Str) : Str := k ++ str ": " ++ qEncode v

/-- The bare line a `WriteDefault` call emits. -/
def writeDefaultLine (p : HeaderPart) (key value : Str) : Str :=
  bareLine (canonicalMIMEHeaderKey key)
    (if (p.removeH (canonicalMIMEHeaderKey key)).1 = [] then value
     else (p.removeH (canonicalMIMEHeaderKey key)).1)

/-- The bare lines a `writeRcpt` call emits (none, or one). -/
def writeRcptLines (key : Str) (addrs : List Address) : List Str :=
  if addrs = [] then []
  else [canonicalMIMEHeaderKey key ++ str ": " ++ intercalateComma (addrs.map addrString)]

theorem writeRcpt_join (key : Str) (addrs : List Address) :
    writeRcpt key addrs = joinCRLF (writeRcptLines key addrs) := by
  unfold writeRcpt writeRcptLines joinCRLF
  split
  · rfl
  · simp [List.append_assoc]

theorem writeDefault_join (p : HeaderPart) (key value : Str) :
    (p.writeDefault key value).1 = joinCRLF [writeDefaultLine p key value] := by
  unfold HeaderPart.writeDefault writeDefaultLine headerLine bareLine joinCRLF
  simp [List.append_assoc]

theorem writeDefault_snd (p : HeaderPart) (key value : Str) :
    (p.writeDefault key value).2 = (p.removeH (canonicalMIMEHeaderKey key)).2 := rfl

theorem writeH_join (p : HeaderPart) :
    p.writeH = joinCRLF (p.headers.map (fun kv => bareLine kv.1 kv.2)) := by
  unfold HeaderPart.writeH joinCRLF headerLine bareLine
  rw [List.map_map]
  rfl

/-- The bare header lines of the message's header phase, mirroring
`msgHeadStr`. -/
def msgHeadLines (tNow tDate : Str) (rnd : Nat) (subject : Str) (fromA : Address)
    (parts : List Part) : List Str :=
  let brh := splitParts parts
  let rcpt := brh.2.1
  let toL := (rcpt.filter (fun r => r.kind = str "to")).map RcptPart.addr
  let ccL := (rcpt.filter (fun r => r.kind = str "cc")).map RcptPart.addr
  let bccL := (rcpt.filter (fun r => r.kind = str "bcc")).map RcptPart.addr
  let dt := if toL = [] ∧ bccL ≠ [] then
      brh.2.2.writeDefault (str "To") (str "undisclosed-recipients:;")
    else ([], brh.2.2)
  let msgId := str "<blackmail-" ++ tNow ++ str "-" ++ base36 rnd ++ str "@" ++
    afterFirstAt fromA.address ++ str ">"
  let dm := dt.2.writeDefault (str "Message-Id") msgId
  let dd := dm.2.writeDefault (str "Date") tDate
  let ds := dd.2.writeDefault (str "Subject") subject
  writeRcptLines (str "From") [fromA] ++ writeRcptLines (str "To") toL ++
  writeRcptLines (str "Cc") ccL ++
  (if toL = [] ∧ bccL ≠ [] then
     [writeDefaultLine brh.2.2 (str "To") (str "undisclosed-recipients:;")] else []) ++
  ([writeDefaultLine dt.2 (str "Message-Id") msgId] ++
   ([writeDefaultLine dm.2 (str "Date") tDate] ++
    ([writeDefaultLine dd.2 (str "Subject") subject] ++
     ds.2.headers.map (fun kv => bareLine kv.1 kv.2))))

theorem msgHead_join (tNow tDate : Str) (rnd : Nat) (subject : Str) (fromA : Address)
    (parts : List Part) :
    msgHeadStr tNow tDate rnd subject fromA parts =
      joinCRLF (msgHeadLines tNow tDate rnd subject fromA parts) := by
  unfold msgHeadStr msgHeadLines
  simp only [joinCRLF_append, ← writeRcpt_join, ← writeDefault_join, ← writeH_join]
  by_cases hcond : (((splitParts parts).2.1.filter (fun r => r.kind = str "to")).map
      RcptPart.addr = [] ∧
      ((splitParts parts).2.1.filter (fun r => r.kind = str "bcc")).map RcptPart.addr ≠ [])
  · simp only [if_pos hcond, ← writeDefault_join, joinCRLF_append]
    simp [List.append_assoc, ← writeDefault_join, ← writeH_join, joinCRLF_append]
  · simp only [if_neg hcond]
    simp [List.append_assoc, ← writeDefault_join, ← writeH_join, joinCRLF_append, joinCRLF]

/-! ### Locating a header line's key -/

/-- The key of an emitted header line: the bytes before the first colon. -/
def keyOf (s : Str) : Str := s.takeWhile (fun c => c ≠ ':')

theorem qEncode_id (v : Str) (h : needsEncoding v = false) : qEncode v = v := by
  simp [qEncode, h]

theorem keyOf_line (k rest : Str) (hk : ':' ∉ k) : keyOf (k ++ ':' :: rest) = k := by
  unfold keyOf
  exact takeWhile_append_stop _ k ':' rest
    (fun x hx => by simp only [decide_eq_true_eq]; exact fun he => hk (he ▸ hx))
    (by simp)

theorem bareLine_shape (k v : Str) : bareLine k v = k ++ ':' :: ' ' :: qEncode v := by
  simp [bareLine, str, List.append_assoc]

theorem keyOf_bareLine (k v : Str) (hk : ':' ∉ k) : keyOf (bareLine k v) = k := by
  rw [bareLine_shape]
  exact keyOf_line k _ hk

theorem keyOf_of_isPrefixOf (K s : Str) (hp : (K ++ str ": ").isPrefixOf s = true)
    (hK : ':' ∉ K) : keyOf s = K := by
  rw [ List.isPrefixOf_iff_prefix] at hp
  obtain ⟨t, ht⟩ := hp
  rw [← ht]
  have hsh : K ++ str ": " ++ t = K ++ ':' :: (' ' :: t) := by simp [str]
  rw [hsh]
  exact keyOf_line K _ hK

theorem isPrefixOf_self_append (K v : Str) :
    (K ++ str ": ").isPrefixOf (K ++ str ": " ++ v) = true := by
  rw [ List.isPrefixOf_iff_prefix]
  exact ⟨v, by simp [List.append_assoc]⟩

theorem not_prefix_of_key_ne (K k v : Str) (hK : ':' ∉ K) (hk : ':' ∉ k)
    (hne : k ≠ K) : (K ++ str ": ").isPrefixOf (k ++ ':' :: v) = false := by
  cases hcon : (K ++ str ": ").isPrefixOf (k ++ ':' :: v)
  · rfl
  · exfalso
    have h2 := keyOf_of_isPrefixOf K _ hcon hK
    rw [keyOf_line k v hk] at h2
    exact hne h2

theorem not_prefix_of_head_ne (K s : Str) (c : Char) (hK : K ≠ [])
    (hc : K.headD ' ' ≠ c) : (K ++ str ": ").isPrefixOf (c :: s) = false := by
  cases K with
  | nil => exact absurd rfl hK
  | cons a as =>
      have hac : a ≠ c := hc
      simp [List.cons_append, List.isPrefixOf, hac]

/-! ### `Remove` and the multiset of entries at one key -/

theorem removeFirst_of_filter_single (K V : Str) (l : List (Str × Str))
    (h : l.filter (fun kv => kv.1 = K) = [(K, V)]) :
    ∃ l', removeFirst K l = some (V, l') ∧ l'.filter (fun kv => kv.1 = K) = [] := by
  induction l with
  | nil => simp [List.filter_nil] at h
  | cons kv rest ih =>
      by_cases hk : kv.1 = K
      · have hf : (kv :: rest).filter (fun kv => kv.1 = K) =
            kv :: rest.filter (fun kv => kv.1 = K) := by
          simp [List.filter_cons, hk]
        rw [hf] at h
        have hkv : kv = (K, V) := (List.cons_eq_cons.mp h).1
        have hrest : rest.filter (fun kv => kv.1 = K) = [] := (List.cons_eq_cons.mp h).2
        refine ⟨rest, ?_, hrest⟩
        simp [removeFirst, hk, hkv]
      · have hf : (kv :: rest).filter (fun kv => kv.1 = K) =
            rest.filter (fun kv => kv.1 = K) := by
          simp [List.filter_cons, hk]
        rw [hf] at h
        obtain ⟨l', hrm, hl'⟩ := ih h
        refine ⟨kv :: l', ?_, ?_⟩
        · simp [removeFirst, hk, hrm]
        · simp [List.filter_cons, hk, hl']

theorem removeFirst_filter_ne (k K : Str) (hne : k ≠ K) (l : List (Str × Str)) :
    ∀ v l', removeFirst k l = some (v, l') →
      l'.filter (fun kv => kv.1 = K) = l.filter (fun kv => kv.1 = K) := by
  induction l with
  | nil => intro v l' h; simp [removeFirst] at h
  | cons kv rest ih =>
      intro v l' h
      by_cases hk : kv.1 = k
      · simp only [removeFirst, if_pos hk, Option.some.injEq, Prod.mk.injEq] at h
        rw [← h.2]
        have hkK : ¬ kv.1 = K := by rw [hk]; exact hne
        simp [List.filter_cons, hkK]
      · simp only [removeFirst, if_neg hk] at h
        cases hr : removeFirst k rest with
        | none => rw [hr] at h; exact Option.noConfusion h
        | some vl =>
            rw [hr] at h
            simp only [Option.map_some', Option.some.injEq, Prod.mk.injEq] at h
            rw [← h.2]
            rcases vl with ⟨v0, l0⟩
            have := ih v0 l0 hr
            by_cases hkK : kv.1 = K <;> simp [List.filter_cons, hkK, this]

theorem removeFirst_subset (k : Str) (l : List (Str × Str)) :
    ∀ v l', removeFirst k l = some (v, l') → ∀ kv ∈ l', kv ∈ l := by
  induction l with
  | nil => intro v l' h; simp [removeFirst] at h
  | cons kv0 rest ih =>
      intro v l' h
      by_cases hk : kv0.1 = k
      · simp only [removeFirst, if_pos hk, Option.some.injEq, Prod.mk.injEq] at h
        intro kv hkv
        rw [← h.2] at hkv
        exact List.mem_cons_of_mem _ hkv
      · simp only [removeFirst, if_neg hk] at h
        cases hr : removeFirst k rest with
        | none => rw [hr] at h; exact Option.noConfusion h
        | some vl =>
            rw [hr] at h
            simp only [Option.map_some', Option.some.injEq, Prod.mk.injEq] at h
            rcases vl with ⟨v0, l0⟩
            intro kv hkv
            rw [← h.2] at hkv
            rcases List.mem_cons.mp hkv with hkv | hkv
            · exact hkv ▸ List.mem_cons_self _ _
            · exact List.mem_cons_of_mem _ (ih v0 l0 hr kv hkv)

theorem removeH_filter_ne (p : HeaderPart) (name K : Str)
    (hne : canonicalMIMEHeaderKey name ≠ K) :
    (p.removeH name).2.headers.filter (fun kv => kv.1 = K) =
      p.headers.filter (fun kv => kv.1 = K) := by
  unfold HeaderPart.removeH
  cases hr : removeFirst (canonicalMIMEHeaderKey name) p.headers with
  | none => rfl
  | some vl =>
      rcases vl with ⟨v, l'⟩
      exact removeFirst_filter_ne _ K hne p.headers v l' hr

theorem removeH_headers_subset (p : HeaderPart) (name : Str) :
    ∀ kv ∈ (p.removeH name).2.headers, kv ∈ p.headers := by
  unfold HeaderPart.removeH
  cases hr : removeFirst (canonicalMIMEHeaderKey name) p.headers with
  | none => intro kv hkv; exact hkv
  | some vl =>
      rcases vl with ⟨v, l'⟩
      exact removeFirst_subset _ p.headers v l' hr

theorem removeH_fst_of_filter_single (p : HeaderPart) (name K V : Str)
    (hK : canonicalMIMEHeaderKey name = K)
    (h : p.headers.filter (fun kv => kv.1 = K) = [(K, V)]) :
    (p.removeH name).1 = V ∧
      (p.removeH name).2.headers.filter (fun kv => kv.1 = K) = [] := by
  obtain ⟨l', hrm, hl'⟩ := removeFirst_of_filter_single K V p.headers h
  unfold HeaderPart.removeH
  rw [hK, hrm]
  exact ⟨rfl, hl'⟩

theorem removeH_filter_nil (p : HeaderPart) (name K : Str)
    (h : p.headers.filter (fun kv => kv.1 = K) = []) :
    (p.removeH name).2.headers.filter (fun kv => kv.1 = K) = [] := by
  rw [List.filter_eq_nil_iff] at h ⊢
  intro kv hkv
  exact h kv (removeH_headers_subset p name kv hkv)

/-! ### Named states of the default-header chain -/

/-- The recipient parts of a message. -/
def rcptOf (parts : List Part) : List RcptPart := (splitParts parts).2.1

/-- The merged user header part of a message. -/
def hdrOf (parts : List Part) : HeaderPart := (splitParts parts).2.2

/-- The To recipients as addresses. -/
def toLof (parts : List Part) : List Address :=
  ((rcptOf parts).filter (fun r => r.kind = str "to")).map RcptPart.addr

/-- The Cc recipients as addresses. -/
def ccLof (parts : List Part) : List Address :=
  ((rcptOf parts).filter (fun r => r.kind = str "cc")).map RcptPart.addr

/-- The Bcc recipients as addresses. -/
def bccLof (parts : List Part) : List Address :=
  ((rcptOf parts).filter (fun r => r.kind = str "bcc")).map RcptPart.addr

/-- The generated Message-Id value. -/
def msgIdOf (tNow : Str) (rnd : Nat) (fromA : Address) : Str :=
  str "<blackmail-" ++ tNow ++ str "-" ++ base36 rnd ++ str "@" ++
    afterFirstAt fromA.address ++ str ">"

/-- User headers after the possible default-To write. -/
def hdrS1 (parts : List Part) : HeaderPart :=
  if toLof parts = [] ∧ bccLof parts ≠ [] then ((hdrOf parts).removeH (str "To")).2
  else hdrOf parts

/-- User headers after the Message-Id write. -/
def hdrS2 (parts : List Part) : HeaderPart := ((hdrS1 parts).removeH (str "Message-Id")).2

/-- User headers after the Date write. -/
def hdrS3 (parts : List Part) : HeaderPart := ((hdrS2 parts).removeH (str "Date")).2

/-- User headers after the Subject write (what `headers.Write` emits). -/
def hdrS4 (parts : List Part) : HeaderPart := ((hdrS3 parts).removeH (str "Subject")).2

theorem msgHeadLines_eq (tNow tDate : Str) (rnd : Nat) (subject : Str) (fromA : Address)
    (parts : List Part) :
    msgHeadLines tNow tDate rnd subject fromA parts =
      writeRcptLines (str "From") [fromA] ++ writeRcptLines (str "To") (toLof parts) ++
      writeRcptLines (str "Cc") (ccLof parts) ++
      (if toLof parts = [] ∧ bccLof parts ≠ [] then
        [writeDefaultLine (hdrOf parts) (str "To") (str "undisclosed-recipients:;")]
       else []) ++
      ([writeDefaultLine (hdrS1 parts) (str "Message-Id") (msgIdOf tNow rnd fromA)] ++
       ([writeDefaultLine (hdrS2 parts) (str "Date") tDate] ++
        ([writeDefaultLine (hdrS3 parts) (str "Subject") subject] ++
         (hdrS4 parts).headers.map (fun kv => bareLine kv.1 kv.2)))) := by
  have hTo : canonicalMIMEHeaderKey (str "To") = str "To" := by decide
  have hMi : canonicalMIMEHeaderKey (str "Message-Id") = str "Message-Id" := by decide
  have hDa : canonicalMIMEHeaderKey (str "Date") = str "Date" := by decide
  have hSu : canonicalMIMEHeaderKey (str "Subject") = str "Subject" := by decide
  unfold msgHeadLines
  simp only [rcptOf, hdrOf, toLof, ccLof, bccLof, msgIdOf, hdrS1, hdrS2, hdrS3, hdrS4]
  by_cases hcond : (((splitParts parts).2.1.filter (fun r => r.kind = str "to")).map
      RcptPart.addr = [] ∧
      ((splitParts parts).2.1.filter (fun r => r.kind = str "bcc")).map RcptPart.addr ≠ [])
  · simp only [if_pos hcond, writeDefault_snd, hTo, hMi, hDa, hSu]
  · simp only [if_neg hcond, writeDefault_snd, hTo, hMi, hDa, hSu]

/-! ### Every emitted header line is non-empty and free of carriage returns -/

theorem bareLine_wf (k v : Str) (hk : '\r' ∉ k) :
    '\r' ∉ bareLine k v ∧ bareLine k v ≠ [] := by
  constructor
  · unfold bareLine
    simp only [List.mem_append]
    rintro ((h | h) | h)
    · exact hk h
    · revert h; decide
    · exact qEncode_noCR v h
  · rw [bareLine_shape]
    intro h
    exact absurd (List.append_eq_nil.mp h).2 (by simp)

theorem writeRcptLines_wf (key : Str) (addrs : List Address)
    (hkey : '\r' ∉ canonicalMIMEHeaderKey key)
    (haddr : ∀ a ∈ addrs, '\r' ∉ a.address) :
    ∀ l ∈ writeRcptLines key addrs, '\r' ∉ l ∧ l ≠ [] := by
  unfold writeRcptLines
  split
  · simp
  · intro l hl
    simp only [List.mem_singleton] at hl
    subst hl
    constructor
    · simp only [List.mem_append]
      rintro ((h | h) | h)
      · exact hkey h
      · revert h; decide
      · refine intercalateComma_noCR _ ?_ h
        intro x hx
        simp only [List.mem_map] at hx
        obtain ⟨a, ha, rfl⟩ := hx
        exact addrString_noCR a (haddr a ha)
    · intro h
      rcases List.append_eq_nil.mp h with ⟨h1, -⟩
      rcases List.append_eq_nil.mp h1 with ⟨-, h2⟩
      revert h2; decide

theorem hdrS4_subset (parts : List Part) :
    ∀ kv ∈ (hdrS4 parts).headers, kv ∈ (hdrOf parts).headers := by
  intro kv hkv
  have h3 : kv ∈ (hdrS3 parts).headers := removeH_headers_subset _ _ kv hkv
  have h2 : kv ∈ (hdrS2 parts).headers := removeH_headers_subset _ _ kv h3
  have h1 : kv ∈ (hdrS1 parts).headers := removeH_headers_subset _ _ kv h2
  unfold hdrS1 at h1
  by_cases hcond : (toLof parts = [] ∧ bccLof parts ≠ [])
  · rw [if_pos hcond] at h1
    exact removeH_headers_subset _ _ kv h1
  · rwa [if_neg hcond] at h1

theorem toLof_addr_mem (parts : List Part) (k : Str) (a : Address)
    (ha : a ∈ ((rcptOf parts).filter (fun r => r.kind = k)).map RcptPart.addr) :
    ∃ r ∈ rcptOf parts, a.address = r.address := by
  simp only [List.mem_map] at ha
  obtain ⟨r, hr, rfl⟩ := ha
  exact ⟨r, (List.mem_filter.mp hr).1, rfl⟩

theorem msgHeadLines_wf (tNow tDate : Str) (rnd : Nat) (subject : Str) (fromA : Address)
    (parts : List Part)
    (hfrom : '\r' ∉ fromA.address)
    (hrcpt : ∀ r ∈ rcptOf parts, '\r' ∉ r.address)
    (hkeys : ∀ kv ∈ (hdrOf parts).headers, '\r' ∉ kv.1) :
    ∀ l ∈ msgHeadLines tNow tDate rnd subject fromA parts, '\r' ∉ l ∧ l ≠ [] := by
  intro l hl
  rw [msgHeadLines_eq] at hl
  have hfiltCR : ∀ (k : Str), ∀ a ∈ ((rcptOf parts).filter (fun r => r.kind = k)).map
      RcptPart.addr, '\r' ∉ a.address := by
    intro k a ha
    obtain ⟨r, hr, he⟩ := toLof_addr_mem parts k a ha
    rw [he]
    exact hrcpt r hr
  simp only [List.mem_append] at hl
  rcases hl with ((((hl | hl) | hl) | hl) | (hl | (hl | (hl | hl))))
  · exact writeRcptLines_wf (str "From") [fromA] (by decide)
      (fun a ha => by simp only [List.mem_singleton] at ha; exact ha ▸ hfrom) l hl
  · exact writeRcptLines_wf (str "To") _ (by decide) (hfiltCR _) l (by exact hl)
  · exact writeRcptLines_wf (str "Cc") _ (by decide) (hfiltCR _) l (by exact hl)
  · revert hl
    split
    · intro hl
      simp only [List.mem_singleton] at hl
      subst hl
      exact bareLine_wf _ _ (by decide)
    · intro hl
      exact absurd hl (List.not_mem_nil l)
  · simp only [List.mem_singleton] at hl
    subst hl
    exact bareLine_wf _ _ (by decide)
  · simp only [List.mem_singleton] at hl
    subst hl
    exact bareLine_wf _ _ (by decide)
  · simp only [List.mem_singleton] at hl
    subst hl
    exact bareLine_wf _ _ (by decide)
  · simp only [List.mem_map] at hl
    obtain ⟨kv, hkv, rfl⟩ := hl
    exact bareLine_wf _ _ (hkeys kv (hdrS4_subset parts kv hkv))

/-! ### Filtering the header lines carrying one key -/

theorem filter_writeRcptLines_ne (K key : Str) (addrs : List Address)
    (hK : ':' ∉ K) (hkey : ':' ∉ canonicalMIMEHeaderKey key)
    (hne : canonicalMIMEHeaderKey key ≠ K) :
    (writeRcptLines key addrs).filter (fun l => (K ++ str ": ").isPrefixOf l) = [] := by
  unfold writeRcptLines
  split
  · rfl
  · rw [List.filter_cons, List.filter_nil]
    have hsh : canonicalMIMEHeaderKey key ++ str ": " ++
        intercalateComma (addrs.map addrString) =
        canonicalMIMEHeaderKey key ++ ':' ::
          (' ' :: intercalateComma (addrs.map addrString)) := by
      simp [str]
    rw [hsh, not_prefix_of_key_ne K _ _ hK hkey hne]
    simp

theorem filter_bareLine_ne (K k v : Str) (hK : ':' ∉ K) (hk : ':' ∉ k) (hne : k ≠ K) :
    [bareLine k v].filter (fun l => (K ++ str ": ").isPrefixOf l) = [] := by
  rw [List.filter_cons, List.filter_nil, bareLine_shape,
    not_prefix_of_key_ne K k _ hK hk hne]
  simp

theorem filter_bareLine_eq (K v : Str) (henc : needsEncoding v = false) :
    [bareLine K v].filter (fun l => (K ++ str ": ").isPrefixOf l) =
      [K ++ str ": " ++ v] := by
  have h1 : bareLine K v = K ++ str ": " ++ v := by
    rw [bareLine, qEncode_id v henc]
  rw [h1, List.filter_cons, List.filter_nil, isPrefixOf_self_append]
  simp

theorem filter_userLines (K : Str) (hs : List (Str × Str)) (hK : ':' ∉ K)
    (hkeys : ∀ kv ∈ hs, ':' ∉ kv.1) (hnoK : hs.filter (fun kv => kv.1 = K) = []) :
    (hs.map (fun kv => bareLine kv.1 kv.2)).filter
      (fun l => (K ++ str ": ").isPrefixOf l) = [] := by
  rw [List.filter_eq_nil_iff]
  intro l hl
  simp only [List.mem_map] at hl
  obtain ⟨kv, hkv, rfl⟩ := hl
  have hne : kv.1 ≠ K := by
    intro he
    have hmem : kv ∈ hs.filter (fun kv => kv.1 = K) :=
      List.mem_filter.mpr ⟨hkv, by simp [he]⟩
    rw [hnoK] at hmem
    exact absurd hmem (List.not_mem_nil kv)
  intro hcon
  rw [bareLine_shape, not_prefix_of_key_ne K kv.1 _ hK (hkeys kv hkv) hne] at hcon
  exact Bool.noConfusion hcon

theorem filter_writeDefaultLine_ne (K : Str) (p : HeaderPart) (key value : Str)
    (hK : ':' ∉ K) (hk : ':' ∉ canonicalMIMEHeaderKey key)
    (hne : canonicalMIMEHeaderKey key ≠ K) :
    [writeDefaultLine p key value].filter (fun l => (K ++ str ": ").isPrefixOf l) = [] :=
  filter_bareLine_ne K _ _ hK hk hne

theorem writeDefaultLine_user (p : HeaderPart) (key K V value : Str)
    (hc : canonicalMIMEHeaderKey key = K) (hcc : canonicalMIMEHeaderKey K = K)
    (h : p.headers.filter (fun kv => kv.1 = K) = [(K, V)]) (hV : V ≠ []) :
    writeDefaultLine p key value = bareLine K V := by
  obtain ⟨h1, -⟩ := removeH_fst_of_filter_single p K K V hcc h
  unfold writeDefaultLine
  rw [hc, h1, if_neg hV]

theorem msgHeadLines_filter (tNow tDate : Str) (rnd : Nat) (subject : Str)
    (fromA : Address) (parts : List Part) (K V : Str)
    (hK : (K = str "Message-Id" ∨ K = str "Date" ∨ K = str "Subject") ∨
          (K = str "To" ∧ toLof parts = [] ∧ bccLof parts ≠ []))
    (huser : (hdrOf parts).headers.filter (fun kv => kv.1 = K) = [(K, V)])
    (hV : V ≠ []) (henc : needsEncoding V = false)
    (hkeys : ∀ kv ∈ (hdrOf parts).headers, ':' ∉ kv.1) :
    (msgHeadLines tNow tDate rnd subject fromA parts).filter
      (fun l => (K ++ str ": ").isPrefixOf l) = [K ++ str ": " ++ V] := by
  rw [msgHeadLines_eq]
  simp only [List.filter_append]
  rcases hK with (rfl | rfl | rfl) | ⟨rfl, hto, hbcc⟩
  · have hS1 : (hdrS1 parts).headers.filter (fun kv => kv.1 = str "Message-Id") =
        [(str "Message-Id", V)] := by
      unfold hdrS1
      split
      · rw [removeH_filter_ne _ _ _ (by decide)]
        exact huser
      · exact huser
    obtain ⟨-, hafter⟩ := removeH_fst_of_filter_single (hdrS1 parts) (str "Message-Id")
      (str "Message-Id") V (by decide) hS1
    have hline : writeDefaultLine (hdrS1 parts) (str "Message-Id")
        (msgIdOf tNow rnd fromA) = bareLine (str "Message-Id") V :=
      writeDefaultLine_user _ _ _ _ _ (by decide) (by decide) hS1 hV
    have hS4 : (hdrS4 parts).headers.filter (fun kv => kv.1 = str "Message-Id") = [] := by
      unfold hdrS4 hdrS3 hdrS2
      exact removeH_filter_nil _ _ _ (removeH_filter_nil _ _ _ hafter)
    have hdt : (if toLof parts = [] ∧ bccLof parts ≠ [] then
        [writeDefaultLine (hdrOf parts) (str "To") (str "undisclosed-recipients:;")]
       else []).filter (fun l => (str "Message-Id" ++ str ": ").isPrefixOf l) = [] := by
      split
      · exact filter_writeDefaultLine_ne _ _ _ _ (by decide) (by decide) (by decide)
      · rfl
    rw [filter_writeRcptLines_ne _ _ _ (by decide) (by decide) (by decide),
        filter_writeRcptLines_ne _ _ _ (by decide) (by decide) (by decide),
        filter_writeRcptLines_ne _ _ _ (by decide) (by decide) (by decide),
        hdt, hline, filter_bareLine_eq _ _ henc,
        filter_writeDefaultLine_ne _ (hdrS2 parts) _ _ (by decide) (by decide) (by decide),
        filter_writeDefaultLine_ne _ (hdrS3 parts) _ _ (by decide) (by decide) (by decide),
        filter_userLines _ _ (by decide)
          (fun kv hkv => hkeys kv (hdrS4_subset parts kv hkv)) hS4]
    simp
  · have hS1 : (hdrS1 parts).headers.filter (fun kv => kv.1 = str "Date") =
        [(str "Date", V)] := by
      unfold hdrS1
      split
      · rw [removeH_filter_ne _ _ _ (by decide)]
        exact huser
      · exact huser
    have hS2 : (hdrS2 parts).headers.filter (fun kv => kv.1 = str "Date") =
        [(str "Date", V)] := by
      unfold hdrS2
      rw [removeH_filter_ne _ _ _ (by decide)]
      exact hS1
    obtain ⟨-, hafter⟩ := removeH_fst_of_filter_single (hdrS2 parts) (str "Date")
      (str "Date") V (by decide) hS2
    have hline : writeDefaultLine (hdrS2 parts) (str "Date") tDate =
        bareLine (str "Date") V :=
      writeDefaultLine_user _ _ _ _ _ (by decide) (by decide) hS2 hV
    have hS4 : (hdrS4 parts).headers.filter (fun kv => kv.1 = str "Date") = [] := by
      unfold hdrS4 hdrS3
      exact removeH_filter_nil _ _ _ hafter
    have hdt : (if toLof parts = [] ∧ bccLof parts ≠ [] then
        [writeDefaultLine (hdrOf parts) (str "To") (str "undisclosed-recipients:;")]
       else []).filter (fun l => (str "Date" ++ str ": ").isPrefixOf l) = [] := by
      split
      · exact filter_writeDefaultLine_ne _ _ _ _ (by decide) (by decide) (by decide)
      · rfl
    rw [filter_writeRcptLines_ne _ _ _ (by decide) (by decide) (by decide),
        filter_writeRcptLines_ne _ _ _ (by decide) (by decide) (by decide),
        filter_writeRcptLines_ne _ _ _ (by decide) (by decide) (by decide),
        hdt, hline, filter_bareLine_eq _ _ henc,
        filter_writeDefaultLine_ne _ (hdrS1 parts) _ _ (by decide) (by decide) (by decide),
        filter_writeDefaultLine_ne _ (hdrS3 parts) _ _ (by decide) (by decide) (by decide),
        filter_userLines _ _ (by decide)
          (fun kv hkv => hkeys kv (hdrS4_subset parts kv hkv)) hS4]
    simp
  · have hS1 : (hdrS1 parts).headers.filter (fun kv => kv.1 = str "Subject") =
        [(str "Subject", V)] := by
      unfold hdrS1
      split
      · rw [removeH_filter_ne _ _ _ (by decide)]
        exact huser
      · exact huser
    have hS2 : (hdrS2 parts).headers.filter (fun kv => kv.1 = str "Subject") =
        [(str "Subject", V)] := by
      unfold hdrS2
      rw [removeH_filter_ne _ _ _ (by decide)]
      exact hS1
    have hS3 : (hdrS3 parts).headers.filter (fun kv => kv.1 = str "Subject") =
        [(str "Subject", V)] := by
      unfold hdrS3
      rw [removeH_filter_ne _ _ _ (by decide)]
      exact hS2
    obtain ⟨-, hafter⟩ := removeH_fst_of_filter_single (hdrS3 parts) (str "Subject")
      (str "Subject") V (by decide) hS3
    have hline : writeDefaultLine (hdrS3 parts) (str "Subject") subject =
        bareLine (str "Subject") V :=
      writeDefaultLine_user _ _ _ _ _ (by decide) (by decide) hS3 hV
    have hS4 : (hdrS4 parts).headers.filter (fun kv => kv.1 = str "Subject") = [] := by
      unfold hdrS4
      exact hafter
    have hdt : (if toLof parts = [] ∧ bccLof parts ≠ [] then
        [writeDefaultLine (hdrOf parts) (str "To") (str "undisclosed-recipients:;")]
       else []).filter (fun l => (str "Subject" ++ str ": ").isPrefixOf l) = [] := by
      split
      · exact filter_writeDefaultLine_ne _ _ _ _ (by decide) (by decide) (by decide)
      · rfl
    rw [filter_writeRcptLines_ne _ _ _ (by decide) (by decide) (by decide),
        filter_writeRcptLines_ne _ _ _ (by decide) (by decide) (by decide),
        filter_writeRcptLines_ne _ _ _ (by decide) (by decide) (by decide),
        hdt, hline, filter_bareLine_eq _ _ henc,
        filter_writeDefaultLine_ne _ (hdrS1 parts) _ _ (by decide) (by decide) (by decide),
        filter_writeDefaultLine_ne _ (hdrS2 parts) _ _ (by decide) (by decide) (by decide),
        filter_userLines _ _ (by decide)
          (fun kv hkv => hkeys kv (hdrS4_subset parts kv hkv)) hS4]
    simp
  · obtain ⟨-, hafter⟩ := removeH_fst_of_filter_single (hdrOf parts) (str "To")
      (str "To") V (by decide) huser
    have hline : writeDefaultLine (hdrOf parts) (str "To")
        (str "undisclosed-recipients:;") = bareLine (str "To") V :=
      writeDefaultLine_user _ _ _ _ _ (by decide) (by decide) huser hV
    have hS1 : (hdrS1 parts).headers.filter (fun kv => kv.1 = str "To") = [] := by
      unfold hdrS1
      rw [if_pos ⟨hto, hbcc⟩]
      exact hafter
    have hS4 : (hdrS4 parts).headers.filter (fun kv => kv.1 = str "To") = [] := by
      unfold hdrS4 hdrS3 hdrS2
      exact removeH_filter_nil _ _ _ (removeH_filter_nil _ _ _
        (removeH_filter_nil _ _ _ hS1))
    have hToL : (writeRcptLines (str "To") (toLof parts)).filter
        (fun l => (str "To" ++ str ": ").isPrefixOf l) = [] := by
      rw [hto]
      rfl
    rw [filter_writeRcptLines_ne _ _ _ (by decide) (by decide) (by decide),
        hToL,
        filter_writeRcptLines_ne _ _ _ (by decide) (by decide) (by decide),
        if_pos ⟨hto, hbcc⟩, hline, filter_bareLine_eq _ _ henc,
        filter_writeDefaultLine_ne _ (hdrS1 parts) _ _ (by decide) (by decide) (by decide),
        filter_writeDefaultLine_ne _ (hdrS2 parts) _ _ (by decide) (by decide) (by decide),
        filter_writeDefaultLine_ne _ (hdrS3 parts) _ _ (by decide) (by decide) (by decide),
        filter_userLines _ _ (by decide)
          (fun kv hkv => hkeys kv (hdrS4_subset parts kv hkv)) hS4]
    simp

/-! ### The header section of the two success paths -/

theorem cte_fst_noCR (p : BodyPart) (h : '\r' ∉ p.ct) : '\r' ∉ p.cte.1 := by
  unfold BodyPart.cte
  split
  · simp only [List.mem_append]
    rintro (hm | hm)
    · exact h hm
    · revert hm; decide
  · split
    · exact h
    · exact h

theorem cte_snd_noCR (p : BodyPart) : '\r' ∉ p.cte.2 := by
  unfold BodyPart.cte
  split
  · exact (by decide : '\r' ∉ str "quoted-printable")
  · split
    · exact (by decide : '\r' ∉ str "7bit")
    · exact (by decide : '\r' ∉ str "base64")

theorem headerLines_single (tNow tDate : Str) (rnd : Nat) (subject : Str)
    (fromA : Address) (parts : List Part) (c1 c2 bw : Str)
    (hwf : ∀ l ∈ msgHeadLines tNow tDate rnd subject fromA parts, '\r' ∉ l ∧ l ≠ [])
    (hc1 : '\r' ∉ c1) (hc2 : '\r' ∉ c2) :
    headerLines (msgHeadStr tNow tDate rnd subject fromA parts ++
      (str "Content-Type: " ++ c1 ++ crlf ++ str "Content-Transfer-Encoding: " ++ c2 ++
       crlf ++ crlf ++ bw)) =
      msgHeadLines tNow tDate rnd subject fromA parts ++
        [str "Content-Type: " ++ c1, str "Content-Transfer-Encoding: " ++ c2] := by
  have hsh : msgHeadStr tNow tDate rnd subject fromA parts ++
      (str "Content-Type: " ++ c1 ++ crlf ++ str "Content-Transfer-Encoding: " ++ c2 ++
       crlf ++ crlf ++ bw) =
      joinCRLF (msgHeadLines tNow tDate rnd subject fromA parts ++
        [str "Content-Type: " ++ c1, str "Content-Transfer-Encoding: " ++ c2]) ++
      (crlf ++ bw) := by
    rw [joinCRLF_append, msgHead_join]
    simp [joinCRLF, List.append_assoc]
  rw [hsh]
  apply headerLines_closed
  · intro l hl
    rcases List.mem_append.mp hl with hl | hl
    · exact (hwf l hl).1
    · simp only [List.mem_cons, List.not_mem_nil, or_false] at hl
      rcases hl with rfl | rfl
      · simp only [List.mem_append]
        rintro (hm | hm)
        · revert hm; decide
        · exact hc1 hm
      · simp only [List.mem_append]
        rintro (hm | hm)
        · revert hm; decide
        · exact hc2 hm
  · intro l hl
    rcases List.mem_append.mp hl with hl | hl
    · exact (hwf l hl).2
    · simp only [List.mem_cons, List.not_mem_nil, or_false] at hl
      rcases hl with rfl | rfl
      · intro h
        exact absurd (List.append_eq_nil.mp h).1 (by decide)
      · intro h
        exact absurd (List.append_eq_nil.mp h).1 (by decide)

theorem headerLines_multi (tNow tDate : Str) (rnd : Nat) (subject : Str)
    (fromA : Address) (parts : List Part) (ct tb bw : Str)
    (hwf : ∀ l ∈ msgHeadLines tNow tDate rnd subject fromA parts, '\r' ∉ l ∧ l ≠ [])
    (hct : '\r' ∉ ct) (htb : '\r' ∉ tb) :
    headerLines (msgHeadStr tNow tDate rnd subject fromA parts ++
      (str "Mime-Version: 1.0" ++ crlf ++
       str "Content-Type: " ++ ct ++ str ";" ++ crlf ++
       str "\tboundary=\"" ++ tb ++ str "\"" ++ crlf ++ crlf ++ bw)) =
      msgHeadLines tNow tDate rnd subject fromA parts ++
        [str "Mime-Version: 1.0", str "Content-Type: " ++ ct ++ str ";",
         str "\tboundary=\"" ++ tb ++ str "\""] := by
  have hsh : msgHeadStr tNow tDate rnd subject fromA parts ++
      (str "Mime-Version: 1.0" ++ crlf ++
       str "Content-Type: " ++ ct ++ str ";" ++ crlf ++
       str "\tboundary=\"" ++ tb ++ str "\"" ++ crlf ++ crlf ++ bw) =
      joinCRLF (msgHeadLines tNow tDate rnd subject fromA parts ++
        [str "Mime-Version: 1.0", str "Content-Type: " ++ ct ++ str ";",
         str "\tboundary=\"" ++ tb ++ str "\""]) ++ (crlf ++ bw) := by
    rw [joinCRLF_append, msgHead_join]
    simp [joinCRLF, List.append_assoc]
  rw [hsh]
  apply headerLines_closed
  · intro l hl
    rcases List.mem_append.mp hl with hl | hl
    · exact (hwf l hl).1
    · simp only [List.mem_cons, List.not_mem_nil, or_false] at hl
      rcases hl with rfl | rfl | rfl
      · decide
      · simp only [List.mem_append]
        rintro ((hm | hm) | hm)
        · revert hm; decide
        · exact hct hm
        · revert hm; decide
      · simp only [List.mem_append]
        rintro ((hm | hm) | hm)
        · revert hm; decide
        · exact htb hm
        · revert hm; decide
  · intro l hl
    rcases List.mem_append.mp hl with hl | hl
    · exact (hwf l hl).2
    · simp only [List.mem_cons, List.not_mem_nil, or_false] at hl
      rcases hl with rfl | rfl | rfl
      · decide
      · intro h
        exact absurd (List.append_eq_nil.mp h).2 (by decide)
      · intro h
        exact absurd (List.append_eq_nil.mp h).2 (by decide)

/-! ### Claim C4: user headers override system defaults -/

/-- C4 (corrected): a user-supplied header for a system-defaulted key K
(Message-Id, Date, Subject, or the defaulted To of a Bcc-only recipient
set), supplied exactly once with a non-empty value needing no MIME word
encoding, silently overrides the generated default: the emitted header
section contains exactly one K header line, and it carries the user value V.
The restrictions are necessary: `WriteDefault` falls back to the system
default when the user value is empty, and `Remove` deletes only the first
matching entry, so a key supplied twice is emitted twice. -/
theorem C4_header_override (tNow tDate : Str) (rnd : Nat) (tb subject : Str)
    (fromA : Address) (parts : List Part) (K V : Str)
    (hfe : firstError parts = none)
    (hr : (splitParts parts).2.1 ≠ [])
    (hb : (splitParts parts).1 ≠ [])
    (hK : (K = str "Message-Id" ∨ K = str "Date" ∨ K = str "Subject") ∨
          (K = str "To" ∧ toLof parts = [] ∧ bccLof parts ≠ []))
    (huser : (hdrOf parts).headers.filter (fun kv => kv.1 = K) = [(K, V)])
    (hV : V ≠ []) (henc : needsEncoding V = false)
    (hkeys : ∀ kv ∈ (hdrOf parts).headers, '\r' ∉ kv.1 ∧ ':' ∉ kv.1)
    (hfrom : '\r' ∉ fromA.address)
    (hrcpt : ∀ r ∈ rcptOf parts, '\r' ∉ r.address)
    (hpath : ((splitParts parts).1.length = 1 ∧
        ((splitParts parts).1.headD default).isText = true ∧
        '\r' ∉ ((splitParts parts).1.headD default).ct) ∨
      (¬ ((splitParts parts).1.length = 1 ∧
          ((splitParts parts).1.headD default).isText = true) ∧
        tb ≠ [] ∧ setBoundaryErr tb = none ∧
        (bodyMIME tb tb false (splitParts parts).1).2.2 = none ∧
        '\r' ∉ chooseCT (splitParts parts).1 ∧ '\r' ∉ tb)) :
    ∃ out rl, message tNow tDate rnd tb subject fromA parts = .ok (out, rl) ∧
      (headerLines out).filter (fun l => (K ++ str ": ").isPrefixOf l) =
        [K ++ str ": " ++ V] := by
  have hwf := msgHeadLines_wf tNow tDate rnd subject fromA parts hfrom hrcpt
    (fun kv hkv => (hkeys kv hkv).1)
  have hmain := msgHeadLines_filter tNow tDate rnd subject fromA parts K V hK huser hV
    henc (fun kv hkv => (hkeys kv hkv).2)
  have hKf : ':' ∉ K ∧ str "Content-Type" ≠ K ∧ str "Content-Transfer-Encoding" ≠ K ∧
      str "Mime-Version" ≠ K ∧ K ≠ [] ∧ K.headD ' ' ≠ '\t' := by
    rcases hK with (rfl | rfl | rfl) | ⟨rfl, -, -⟩ <;>
      exact ⟨by decide, by decide, by decide, by decide, by decide, by decide⟩
  rcases hpath with ⟨hlen, htext, hctcr⟩ | ⟨hshort, htb, hbok, hbm, hctcr, htbcr⟩
  · refine ⟨_, _, message_ok_single tNow tDate rnd tb subject fromA parts hfe hr hb
      ⟨hlen, htext⟩, ?_⟩
    rw [headerLines_single tNow tDate rnd subject fromA parts _ _ _ hwf
      (cte_fst_noCR _ hctcr) (cte_snd_noCR _), List.filter_append, hmain]
    have e1 : str "Content-Type: " ++ ((splitParts parts).1.headD default).cte.1 =
        str "Content-Type" ++ ':' :: ' ' ::
          ((splitParts parts).1.headD default).cte.1 := rfl
    have e2 : str "Content-Transfer-Encoding: " ++
        ((splitParts parts).1.headD default).cte.2 =
        str "Content-Transfer-Encoding" ++ ':' :: ' ' ::
          ((splitParts parts).1.headD default).cte.2 := rfl
    have h1 : ¬ ((K ++ str ": ").isPrefixOf
        (str "Content-Type: " ++ ((splitParts parts).1.headD default).cte.1) = true) := by
      rw [e1, not_prefix_of_key_ne K _ _ hKf.1 (by decide) hKf.2.1]
      exact Bool.false_ne_true
    have h2 : ¬ ((K ++ str ": ").isPrefixOf
        (str "Content-Transfer-Encoding: " ++
          ((splitParts parts).1.headD default).cte.2) = true) := by
      rw [e2, not_prefix_of_key_ne K _ _ hKf.1 (by decide) hKf.2.2.1]
      exact Bool.false_ne_true
    rw [List.filter_cons_of_neg h1, List.filter_cons_of_neg h2, List.filter_nil]
    simp
  · refine ⟨_, _, message_ok_multi tNow tDate rnd tb subject fromA parts hfe hr hb
      hshort htb hbok hbm, ?_⟩
    have hre : msgHeadStr tNow tDate rnd subject fromA parts ++
        (str "Mime-Version: 1.0" ++ crlf ++
         str "Content-Type: " ++ chooseCT (splitParts parts).1 ++ str ";" ++ crlf ++
         str "\tboundary=\"" ++ tb ++ str "\"" ++ crlf ++ crlf ++
         (bodyMIME tb tb false (splitParts parts).1).1 ++ multipartClose tb) =
        msgHeadStr tNow tDate rnd subject fromA parts ++
        (str "Mime-Version: 1.0" ++ crlf ++
         str "Content-Type: " ++ chooseCT (splitParts parts).1 ++ str ";" ++ crlf ++
         str "\tboundary=\"" ++ tb ++ str "\"" ++ crlf ++ crlf ++
         ((bodyMIME tb tb false (splitParts parts).1).1 ++ multipartClose tb)) := by
      simp [List.append_assoc]
    rw [hre, headerLines_multi tNow tDate rnd subject fromA parts _ _ _ hwf hctcr htbcr,
      List.filter_append, hmain]
    have e1 : str "Mime-Version: 1.0" =
        str "Mime-Version" ++ ':' :: ' ' :: str "1.0" := rfl
    have e2 : str "Content-Type: " ++ chooseCT (splitParts parts).1 ++ str ";" =
        str "Content-Type" ++ ':' :: ' ' ::
          (chooseCT (splitParts parts).1 ++ str ";") := by
      simp only [List.append_assoc]
      rfl
    have e3 : str "\tboundary=\"" ++ tb ++ str "\"" =
        '\t' :: (str "boundary=\"" ++ tb ++ str "\"") := by
      simp only [List.append_assoc]
      rfl
    have h1 : ¬ ((K ++ str ": ").isPrefixOf (str "Mime-Version: 1.0") = true) := by
      rw [e1, not_prefix_of_key_ne K _ _ hKf.1 (by decide) hKf.2.2.2.1]
      exact Bool.false_ne_true
    have h2 : ¬ ((K ++ str ": ").isPrefixOf
        (str "Content-Type: " ++ chooseCT (splitParts parts).1 ++ str ";") = true) := by
      rw [e2, not_prefix_of_key_ne K _ _ hKf.1 (by decide) hKf.2.1]
      exact Bool.false_ne_true
    have h3 : ¬ ((K ++ str ": ").isPrefixOf
        (str "\tboundary=\"" ++ tb ++ str "\"") = true) := by
      rw [e3, not_prefix_of_head_ne K _ '\t' hKf.2.2.2.2.1 hKf.2.2.2.2.2]
      exact Bool.false_ne_true
    rw [List.filter_cons_of_neg h1, List.filter_cons_of_neg h2,
      List.filter_cons_of_neg h3, List.filter_nil]
    simp

/-- Parts for the C4 counterexample: one recipient, one text body, and a
user-supplied Subject header carrying the empty value. -/
def demoPartsC4 : List Part :=
  [Part.rcpt { err := none, kind := str "to", name := [], address := str "b@y.com" },
   Part.body (BodyPart.mk none [] (str "text/plain") (str "hi") [] false false []),
   Part.headers { err := none, headers := [(str "Subject", [])] }]

/-- C4 counterexample: a user-supplied Subject header with the empty value
V = "" does not override the system default — the emitted Subject line
carries the fallback subject instead of V, because `WriteDefault` treats an
empty removed value as absent. -/
theorem C4_counterexample :
    ∃ out rl, message (str "T") (str "D") 0 (str "B") (str "sys")
        { name := [], address := str "a@x.com" } demoPartsC4 = .ok (out, rl) ∧
      (hdrOf demoPartsC4).headers.filter (fun kv => kv.1 = str "Subject") =
        [(str "Subject", [])] ∧
      (headerLines out).filter
        (fun l => (str "Subject" ++ str ": ").isPrefixOf l) = [str "Subject: sys"] ∧
      str "Subject: sys" ≠ str "Subject" ++ str ": " ++ [] := by
  refine ⟨_, _, rfl, by decide, by decide, by decide⟩

/-- Parts for the C4 witness: as the counterexample, but with the non-empty
user Subject value "Hello". -/
def demoPartsC4w : List Part :=
  [Part.rcpt { err := none, kind := str "to", name := [], address := str "b@y.com" },
   Part.body (BodyPart.mk none [] (str "text/plain") (str "hi") [] false false []),
   Part.headers { err := none, headers := [(str "Subject", str "Hello")] }]

/-- Witness for C4: a concrete message with one user-supplied Subject header
"Hello" emits exactly one Subject line, carrying "Hello". -/
theorem C4_header_override_witness :
    ((hdrOf demoPartsC4w).headers.filter (fun kv => kv.1 = str "Subject") =
        [(str "Subject", str "Hello")]) ∧
      ∃ out rl, message (str "T") (str "D") 0 (str "B") (str "sys")
          { name := [], address := str "a@x.com" } demoPartsC4w = .ok (out, rl) ∧
        (headerLines out).filter
          (fun l => (str "Subject" ++ str ": ").isPrefixOf l) =
          [str "Subject" ++ str ": " ++ str "Hello"] :=
  ⟨by decide,
   C4_header_override (str "T") (str "D") 0 (str "B") (str "sys")
     { name := [], address := str "a@x.com" } demoPartsC4w (str "Subject") (str "Hello")
     (by decide) (by decide)
     (fun h => absurd (congrArg List.length h) (by decide))
     (Or.inl (Or.inr (Or.inr rfl)))
     (by decide) (by decide) (by decide) (by decide) (by decide) (by decide)
     (Or.inl ⟨by decide, by decide, by decide⟩)⟩

/-! ### Claim C5: Bcc recipients are hidden -/

/-- Parts for the C5 counterexample: one Cc, one Bcc, no To. -/
def demoPartsC5 : List Part :=
  [Part.rcpt { err := none, kind := str "cc", name := [], address := str "c@y.com" },
   Part.rcpt { err := none, kind := str "bcc", name := [], address := str "d@y.com" },
   Part.body (BodyPart.mk none [] (str "text/plain") (str "hi") [] false false [])]

/-- C5 counterexample: with one Cc and one Bcc recipient and no To, the
builder still emits the default `To: undisclosed-recipients:;` header line,
although the claim requires zero Cc recipients for it — the Cc count is
irrelevant to the default (part_013 line 98 checks only To and Bcc). -/
theorem C5_counterexample :
    ∃ out rl, message (str "T") (str "D") 0 (str "B") (str "s")
        { name := [], address := str "a@x.com" } demoPartsC5 = .ok (out, rl) ∧
      ccLof demoPartsC5 ≠ [] ∧
      str "To: undisclosed-recipients:;" ∈ headerLines out := by
  refine ⟨_, _, rfl, by decide, by decide⟩

/-- Two recipient parts that agree on everything except possibly the
name/address identity of a Bcc recipient. -/
def rcptRel (r r' : RcptPart) : Prop :=
  r.err = r'.err ∧ r.kind = r'.kind ∧ (r.kind = str "bcc" ∨ r = r')

/-- Two parts equal except for the identities of Bcc recipients. -/
inductive partRel : Part → Part → Prop
  | body (b : BodyPart) : partRel (.body b) (.body b)
  | bodies (bs : List BodyPart) : partRel (.bodies bs) (.bodies bs)
  | rcpt {r r' : RcptPart} : rcptRel r r' → partRel (.rcpt r) (.rcpt r')
  | rcpts {rs rs' : List RcptPart} : List.Forall₂ rcptRel rs rs' →
      partRel (.rcpts rs) (.rcpts rs')
  | headers (h : HeaderPart) : partRel (.headers h) (.headers h)

/-- The folding step of `splitParts`. -/
def splitStep (acc : List BodyPart × List RcptPart × HeaderPart) (p : Part) :
    List BodyPart × List RcptPart × HeaderPart :=
  match p with
  | .body pp => (acc.1 ++ [pp], acc.2.1, acc.2.2)
  | .bodies pp => (acc.1 ++ pp, acc.2.1, acc.2.2)
  | .rcpt r => (acc.1, acc.2.1 ++ [r], acc.2.2)
  | .rcpts rs => (acc.1, acc.2.1 ++ rs, acc.2.2)
  | .headers h => (acc.1, acc.2.1, acc.2.2.appendH h)

theorem splitParts_eq (ps : List Part) :
    splitParts ps = ps.foldl splitStep ([], [], { err := none, headers := [] }) := by
  unfold splitParts
  congr 1

theorem forall2_append {α β : Type} {R : α → β → Prop} {l1 u1 : List α} {l2 u2 : List β}
    (h1 : List.Forall₂ R l1 l2) (h2 : List.Forall₂ R u1 u2) :
    List.Forall₂ R (l1 ++ u1) (l2 ++ u2) := by
  induction h1 with
  | nil => exact h2
  | cons ha hl ih => exact List.Forall₂.cons ha ih

theorem foldl_splitStep_rel {parts parts' : List Part}
    (h : List.Forall₂ partRel parts parts') :
    ∀ acc acc' : List BodyPart × List RcptPart × HeaderPart,
      acc.1 = acc'.1 → acc.2.2 = acc'.2.2 → List.Forall₂ rcptRel acc.2.1 acc'.2.1 →
      (parts.foldl splitStep acc).1 = (parts'.foldl splitStep acc').1 ∧
      (parts.foldl splitStep acc).2.2 = (parts'.foldl splitStep acc').2.2 ∧
      List.Forall₂ rcptRel (parts.foldl splitStep acc).2.1
        (parts'.foldl splitStep acc').2.1 := by
  induction h with
  | nil =>
      intro acc acc' h1 h2 h3
      exact ⟨h1, h2, h3⟩
  | cons hp hrest ih =>
      intro acc acc' h1 h2 h3
      rw [List.foldl_cons, List.foldl_cons]
      cases hp with
      | body b =>
          refine ih _ _ ?_ ?_ ?_
          · show acc.1 ++ [b] = acc'.1 ++ [b]
            rw [h1]
          · exact h2
          · exact h3
      | bodies bs =>
          refine ih _ _ ?_ ?_ ?_
          · show acc.1 ++ bs = acc'.1 ++ bs
            rw [h1]
          · exact h2
          · exact h3
      | @rcpt r r' hrr =>
          refine ih _ _ ?_ ?_ ?_
          · exact h1
          · exact h2
          · show List.Forall₂ rcptRel (acc.2.1 ++ [r]) (acc'.2.1 ++ [r'])
            exact forall2_append h3 (List.forall₂_cons.mpr ⟨hrr, List.Forall₂.nil⟩)
      | @rcpts rs rs' h2f =>
          refine ih _ _ ?_ ?_ ?_
          · exact h1
          · exact h2
          · show List.Forall₂ rcptRel (acc.2.1 ++ rs) (acc'.2.1 ++ rs')
            exact forall2_append h3 h2f
      | headers hh =>
          refine ih _ _ ?_ ?_ ?_
          · exact h1
          · show acc.2.2.appendH hh = acc'.2.2.appendH hh
            rw [h2]
          · exact h3

theorem splitParts_rel {parts parts' : List Part}
    (h : List.Forall₂ partRel parts parts') :
    (splitParts parts).1 = (splitParts parts').1 ∧
    (splitParts parts).2.2 = (splitParts parts').2.2 ∧
    List.Forall₂ rcptRel (splitParts parts).2.1 (splitParts parts').2.1 := by
  rw [splitParts_eq, splitParts_eq]
  exact foldl_splitStep_rel h _ _ rfl rfl List.Forall₂.nil

theorem forall2_filter_kind {rs rs' : List RcptPart} (h : List.Forall₂ rcptRel rs rs')
    (k : Str) (hk : k ≠ str "bcc") :
    rs.filter (fun r => r.kind = k) = rs'.filter (fun r => r.kind = k) := by
  induction h with
  | nil => rfl
  | @cons r r' l l' hr hrest ih =>
      obtain ⟨-, hkind, hbr⟩ := hr
      by_cases hcond : r.kind = k
      · have hreq : r = r' := by
          rcases hbr with hbcc | hreq
          · exact absurd (hcond.symm.trans hbcc) hk
          · exact hreq
        subst hreq
        rw [List.filter_cons, List.filter_cons]
        simp [hcond, ih]
      · have hcond' : ¬ r'.kind = k := by rw [← hkind]; exact hcond
        rw [List.filter_cons, List.filter_cons]
        simp [hcond, hcond', ih]

theorem forall2_filter_len {rs rs' : List RcptPart} (h : List.Forall₂ rcptRel rs rs')
    (k : Str) :
    (rs.filter (fun r => r.kind = k)).length =
      (rs'.filter (fun r => r.kind = k)).length := by
  induction h with
  | nil => rfl
  | @cons r r' l l' hr hrest ih =>
      obtain ⟨-, hkind, -⟩ := hr
      rw [List.filter_cons, List.filter_cons]
      by_cases hcond : r.kind = k
      · have hcond' : r'.kind = k := hkind ▸ hcond
        simp [hcond, hcond', ih]
      · have hcond' : ¬ r'.kind = k := by rw [← hkind]; exact hcond
        simp [hcond, hcond', ih]

theorem partRel_errorOf {p p' : Part} (h : partRel p p') : p.errorOf = p'.errorOf := by
  cases h with
  | body b => rfl
  | bodies bs => rfl
  | rcpt hr => exact hr.1
  | rcpts h2 => rfl
  | headers hh => rfl

theorem firstErrorAux_rel {parts parts' : List Part}
    (h : List.Forall₂ partRel parts parts') (i : Nat) :
    firstErrorAux i parts = firstErrorAux i parts' := by
  induction h generalizing i with
  | nil => rfl
  | @cons p p' l l' hp hrest ih =>
      show (match p.errorOf with
        | some e => some (i, e)
        | none => firstErrorAux (i + 1) l) =
        (match p'.errorOf with
        | some e => some (i, e)
        | none => firstErrorAux (i + 1) l')
      rw [partRel_errorOf hp]
      cases p'.errorOf with
      | some e => rfl
      | none => exact ih (i + 1)

theorem firstError_rel {parts parts' : List Part}
    (h : List.Forall₂ partRel parts parts') : firstError parts = firstError parts' :=
  firstErrorAux_rel h 0

theorem toLof_rel {parts parts' : List Part} (h : List.Forall₂ partRel parts parts') :
    toLof parts = toLof parts' := by
  unfold toLof rcptOf
  rw [forall2_filter_kind (splitParts_rel h).2.2 (str "to") (by decide)]

theorem ccLof_rel {parts parts' : List Part} (h : List.Forall₂ partRel parts parts') :
    ccLof parts = ccLof parts' := by
  unfold ccLof rcptOf
  rw [forall2_filter_kind (splitParts_rel h).2.2 (str "cc") (by decide)]

theorem bccLof_rel_nil {parts parts' : List Part}
    (h : List.Forall₂ partRel parts parts') :
    bccLof parts = [] ↔ bccLof parts' = [] := by
  have hlen := forall2_filter_len (splitParts_rel h).2.2 (str "bcc")
  unfold bccLof rcptOf
  rw [List.map_eq_nil_iff, List.map_eq_nil_iff, ← List.length_eq_zero,
    ← List.length_eq_zero, hlen]

theorem msgHeadLines_rel (tNow tDate : Str) (rnd : Nat) (subject : Str)
    (fromA : Address) {parts parts' : List Part}
    (h : List.Forall₂ partRel parts parts') :
    msgHeadLines tNow tDate rnd subject fromA parts =
      msgHeadLines tNow tDate rnd subject fromA parts' := by
  have hto := toLof_rel h
  have hcc := ccLof_rel h
  have hhdr : hdrOf parts = hdrOf parts' := (splitParts_rel h).2.1
  have hcondIff : (toLof parts = [] ∧ bccLof parts ≠ []) ↔
      (toLof parts' = [] ∧ bccLof parts' ≠ []) := by
    rw [hto]
    exact and_congr_right (fun _ => not_congr (bccLof_rel_nil h))
  have hS1 : hdrS1 parts = hdrS1 parts' := by
    unfold hdrS1
    by_cases hcond : (toLof parts = [] ∧ bccLof parts ≠ [])
    · rw [if_pos hcond, if_pos (hcondIff.mp hcond), hhdr]
    · rw [if_neg hcond, if_neg (fun hc => hcond (hcondIff.mpr hc)), hhdr]
  have hS2 : hdrS2 parts = hdrS2 parts' := by
    unfold hdrS2
    rw [hS1]
  have hS3 : hdrS3 parts = hdrS3 parts' := by
    unfold hdrS3
    rw [hS2]
  have hS4 : hdrS4 parts = hdrS4 parts' := by
    unfold hdrS4
    rw [hS3]
  rw [msgHeadLines_eq, msgHeadLines_eq]
  by_cases hcond : (toLof parts = [] ∧ bccLof parts ≠ [])
  · rw [if_pos hcond, if_pos (hcondIff.mp hcond), hto, hcc, hhdr, hS1, hS2, hS3, hS4]
  · rw [if_neg hcond, if_neg (fun hc => hcond (hcondIff.mpr hc)), hto, hcc,
      hS1, hS2, hS3, hS4]

theorem msgHeadStr_rel (tNow tDate : Str) (rnd : Nat) (subject : Str)
    (fromA : Address) {parts parts' : List Part}
    (h : List.Forall₂ partRel parts parts') :
    msgHeadStr tNow tDate rnd subject fromA parts =
      msgHeadStr tNow tDate rnd subject fromA parts' := by
  rw [msgHead_join, msgHead_join, msgHeadLines_rel tNow tDate rnd subject fromA h]

/-! ### Exactly when the default To line appears -/

theorem removeFirst_none_of_filter_nil (K : Str) (l : List (Str × Str))
    (h : l.filter (fun kv => kv.1 = K) = []) : removeFirst K l = none := by
  induction l with
  | nil => rfl
  | cons kv rest ih =>
      by_cases hk : kv.1 = K
      · simp [List.filter_cons, hk] at h
      · rw [List.filter_cons, if_neg (by simpa using hk)] at h
        simp [removeFirst, hk, ih h]

theorem keyOf_rcptLine (key : Str) (addrs : List Address)
    (hk : ':' ∉ canonicalMIMEHeaderKey key) :
    ∀ l ∈ writeRcptLines key addrs, keyOf l = canonicalMIMEHeaderKey key := by
  unfold writeRcptLines
  split
  · simp
  · intro l hl
    simp only [List.mem_singleton] at hl
    subst hl
    have hsh : canonicalMIMEHeaderKey key ++ str ": " ++
        intercalateComma (addrs.map addrString) =
        canonicalMIMEHeaderKey key ++ ':' :: ' ' ::
          intercalateComma (addrs.map addrString) := by
      simp [str]
    rw [hsh]
    exact keyOf_line _ _ hk

theorem keyOf_writeDefaultLine (p : HeaderPart) (key value : Str)
    (hk : ':' ∉ canonicalMIMEHeaderKey key) :
    keyOf (writeDefaultLine p key value) = canonicalMIMEHeaderKey key :=
  keyOf_bareLine _ _ hk

theorem lt_mem_addrString (a : Address) : '<' ∈ addrString a := by
  unfold addrString
  repeat' split
  all_goals simp

theorem lt_mem_intercalate (ls : List Str) (hne : ls ≠ []) (h : ∀ l ∈ ls, '<' ∈ l) :
    '<' ∈ intercalateComma ls := by
  match ls with
  | [] => exact absurd rfl hne
  | [x] => exact h x (by simp)
  | x :: y :: rest =>
      show '<' ∈ x ++ str ", " ++ intercalateComma (y :: rest)
      simp only [List.mem_append]
      exact Or.inl (Or.inl (h x (by simp)))

theorem defaultTo_mem_iff (tNow tDate : Str) (rnd : Nat) (subject : Str)
    (fromA : Address) (parts : List Part)
    (hkeys : ∀ kv ∈ (hdrOf parts).headers, ':' ∉ kv.1)
    (hnoTo : (hdrOf parts).headers.filter (fun kv => kv.1 = str "To") = []) :
    (str "To: undisclosed-recipients:;" ∈
        msgHeadLines tNow tDate rnd subject fromA parts) ↔
      (toLof parts = [] ∧ bccLof parts ≠ []) := by
  rw [msgHeadLines_eq]
  have htarget : keyOf (str "To: undisclosed-recipients:;") = str "To" := by decide
  constructor
  · intro hmem
    by_contra hncond
    rw [if_neg hncond] at hmem
    simp only [List.append_nil, List.mem_append] at hmem
    rcases hmem with ((hm | hm) | hm) | (hm | (hm | (hm | hm)))
    · have hk := keyOf_rcptLine (str "From") [fromA] (by decide) _ hm
      rw [htarget] at hk
      revert hk
      decide
    · by_cases hto : toLof parts = []
      · rw [hto] at hm
        revert hm
        decide
      · unfold writeRcptLines at hm
        rw [if_neg hto] at hm
        simp only [List.mem_singleton] at hm
        have hlt : '<' ∈ intercalateComma ((toLof parts).map addrString) := by
          apply lt_mem_intercalate
          · simpa using hto
          · intro l hl
            simp only [List.mem_map] at hl
            obtain ⟨x, hx, rfl⟩ := hl
            exact lt_mem_addrString x
        have hin : '<' ∈ str "To: undisclosed-recipients:;" := by
          rw [hm]
          simp only [List.mem_append]
          exact Or.inr hlt
        revert hin
        decide
    · have hk := keyOf_rcptLine (str "Cc") _ (by decide) _ hm
      rw [htarget] at hk
      revert hk
      decide
    · simp only [List.mem_singleton] at hm
      have hk := congrArg keyOf hm
      rw [htarget, keyOf_writeDefaultLine _ _ _ (by decide)] at hk
      revert hk
      decide
    · simp only [List.mem_singleton] at hm
      have hk := congrArg keyOf hm
      rw [htarget, keyOf_writeDefaultLine _ _ _ (by decide)] at hk
      revert hk
      decide
    · simp only [List.mem_singleton] at hm
      have hk := congrArg keyOf hm
      rw [htarget, keyOf_writeDefaultLine _ _ _ (by decide)] at hk
      revert hk
      decide
    · simp only [List.mem_map] at hm
      obtain ⟨kv, hkv, heq⟩ := hm
      have hk := congrArg keyOf heq
      rw [keyOf_bareLine _ _ (hkeys kv (hdrS4_subset parts kv hkv)), htarget] at hk
      have hkvmem : kv ∈ (hdrOf parts).headers := hdrS4_subset parts kv hkv
      have hnk := List.filter_eq_nil_iff.mp hnoTo kv hkvmem
      simp [hk] at hnk
  · intro hcond
    rw [if_pos hcond]
    have hwd : writeDefaultLine (hdrOf parts) (str "To")
        (str "undisclosed-recipients:;") = str "To: undisclosed-recipients:;" := by
      unfold writeDefaultLine
      have h1 : ((hdrOf parts).removeH (canonicalMIMEHeaderKey (str "To"))).1 = [] := by
        unfold HeaderPart.removeH
        rw [show canonicalMIMEHeaderKey (canonicalMIMEHeaderKey (str "To")) = str "To"
          from by decide]
        rw [removeFirst_none_of_filter_nil _ _ hnoTo]
      rw [h1, if_pos rfl]
      decide
    simp only [List.mem_append]
    exact Or.inl (Or.inr (by simp [hwd]))

theorem target_notin_tail_single (c1 c2 : Str) :
    str "To: undisclosed-recipients:;" ∉
      [str "Content-Type: " ++ c1, str "Content-Transfer-Encoding: " ++ c2] := by
  intro hm
  simp only [List.mem_cons, List.not_mem_nil, or_false] at hm
  rcases hm with hm | hm
  · have hk := congrArg keyOf hm
    rw [show str "Content-Type: " ++ c1 = str "Content-Type" ++ ':' :: ' ' :: c1
      from rfl] at hk
    rw [keyOf_line _ _ (by decide)] at hk
    revert hk
    decide
  · have hk := congrArg keyOf hm
    rw [show str "Content-Transfer-Encoding: " ++ c2 =
      str "Content-Transfer-Encoding" ++ ':' :: ' ' :: c2 from rfl] at hk
    rw [keyOf_line _ _ (by decide)] at hk
    revert hk
    decide

theorem target_notin_tail_multi (ct tb : Str) :
    str "To: undisclosed-recipients:;" ∉
      [str "Mime-Version: 1.0", str "Content-Type: " ++ ct ++ str ";",
       str "\tboundary=\"" ++ tb ++ str "\""] := by
  intro hm
  simp only [List.mem_cons, List.not_mem_nil, or_false] at hm
  rcases hm with hm | hm | hm
  · revert hm
    decide
  · have hk := congrArg keyOf hm
    rw [show str "Content-Type: " ++ ct ++ str ";" =
        str "Content-Type" ++ ':' :: ' ' :: (ct ++ str ";") from by
      simp only [List.append_assoc]
      rfl] at hk
    rw [keyOf_line _ _ (by decide)] at hk
    revert hk
    decide
  · have hh := congrArg (fun l => l.headD ' ') hm
    rw [show str "\tboundary=\"" ++ tb ++ str "\"" =
        '\t' :: (str "boundary=\"" ++ tb ++ str "\"") from by
      simp only [List.append_assoc]
      rfl] at hh
    have hh2 : (str "To: undisclosed-recipients:;").headD ' ' = '\t' := hh
    revert hh2
    decide

/-- C5 (corrected): Bcc recipients are never written into any emitted
header — replacing the name and address of every Bcc recipient leaves the
emitted message bytes unchanged — and the builder emits the default
`To: undisclosed-recipients:;` header exactly when there are zero To
recipients and at least one Bcc recipient, regardless of the number of Cc
recipients (given no user-supplied To header, which would override the
default). -/
theorem C5_bcc_hidden (tNow tDate : Str) (rnd : Nat) (tb subject : Str)
    (fromA : Address) (parts parts' : List Part)
    (hrel : List.Forall₂ partRel parts parts')
    (hfe : firstError parts = none)
    (hr : (splitParts parts).2.1 ≠ [])
    (hb : (splitParts parts).1 ≠ [])
    (hkeys : ∀ kv ∈ (hdrOf parts).headers, '\r' ∉ kv.1 ∧ ':' ∉ kv.1)
    (hnoTo : (hdrOf parts).headers.filter (fun kv => kv.1 = str "To") = [])
    (hfrom : '\r' ∉ fromA.address)
    (hrcpt : ∀ r ∈ rcptOf parts, '\r' ∉ r.address)
    (hpath : ((splitParts parts).1.length = 1 ∧
        ((splitParts parts).1.headD default).isText = true ∧
        '\r' ∉ ((splitParts parts).1.headD default).ct) ∨
      (¬ ((splitParts parts).1.length = 1 ∧
          ((splitParts parts).1.headD default).isText = true) ∧
        tb ≠ [] ∧ setBoundaryErr tb = none ∧
        (bodyMIME tb tb false (splitParts parts).1).2.2 = none ∧
        '\r' ∉ chooseCT (splitParts parts).1 ∧ '\r' ∉ tb)) :
    ∃ out rl rl', message tNow tDate rnd tb subject fromA parts = .ok (out, rl) ∧
      message tNow tDate rnd tb subject fromA parts' = .ok (out, rl') ∧
      ((str "To: undisclosed-recipients:;" ∈ headerLines out) ↔
        (toLof parts = [] ∧ bccLof parts ≠ [])) := by
  have hbodies : (splitParts parts).1 = (splitParts parts').1 := (splitParts_rel hrel).1
  have hfe' : firstError parts' = none := by
    rw [← firstError_rel hrel]
    exact hfe
  have hlen := List.Forall₂.length_eq (splitParts_rel hrel).2.2
  have hr' : (splitParts parts').2.1 ≠ [] := by
    intro hnil
    apply hr
    rw [← List.length_eq_zero, hlen, hnil]
    rfl
  have hb' : (splitParts parts').1 ≠ [] := hbodies ▸ hb
  have hwf := msgHeadLines_wf tNow tDate rnd subject fromA parts hfrom hrcpt
    (fun kv hkv => (hkeys kv hkv).1)
  have hiff := defaultTo_mem_iff tNow tDate rnd subject fromA parts
    (fun kv hkv => (hkeys kv hkv).2) hnoTo
  rcases hpath with ⟨hlen1, htext, hctcr⟩ | ⟨hshort, htb, hbok, hbm, hctcr, htbcr⟩
  · refine ⟨_, _, msgToList parts',
      message_ok_single tNow tDate rnd tb subject fromA parts hfe hr hb
        ⟨hlen1, htext⟩, ?_, ?_⟩
    · rw [message_ok_single tNow tDate rnd tb subject fromA parts' hfe' hr' hb'
        ⟨hbodies ▸ hlen1, hbodies ▸ htext⟩]
      rw [← hbodies, ← msgHeadStr_rel tNow tDate rnd subject fromA hrel]
    · rw [headerLines_single tNow tDate rnd subject fromA parts _ _ _ hwf
        (cte_fst_noCR _ hctcr) (cte_snd_noCR _)]
      constructor
      · intro hmem
        rcases List.mem_append.mp hmem with hmem | hmem
        · exact hiff.mp hmem
        · exact absurd hmem (target_notin_tail_single _ _)
      · intro hcond
        exact List.mem_append.mpr (Or.inl (hiff.mpr hcond))
  · refine ⟨_, _, msgToList parts',
      message_ok_multi tNow tDate rnd tb subject fromA parts hfe hr hb
        hshort htb hbok hbm, ?_, ?_⟩
    · rw [message_ok_multi tNow tDate rnd tb subject fromA parts' hfe' hr' hb'
        (hbodies ▸ hshort) htb hbok (hbodies ▸ hbm)]
      rw [← hbodies, ← msgHeadStr_rel tNow tDate rnd subject fromA hrel]
    · have hre : msgHeadStr tNow tDate rnd subject fromA parts ++
          (str "Mime-Version: 1.0" ++ crlf ++
           str "Content-Type: " ++ chooseCT (splitParts parts).1 ++ str ";" ++ crlf ++
           str "\tboundary=\"" ++ tb ++ str "\"" ++ crlf ++ crlf ++
           (bodyMIME tb tb false (splitParts parts).1).1 ++ multipartClose tb) =
          msgHeadStr tNow tDate rnd subject fromA parts ++
          (str "Mime-Version: 1.0" ++ crlf ++
           str "Content-Type: " ++ chooseCT (splitParts parts).1 ++ str ";" ++ crlf ++
           str "\tboundary=\"" ++ tb ++ str "\"" ++ crlf ++ crlf ++
           ((bodyMIME tb tb false (splitParts parts).1).1 ++ multipartClose tb)) := by
        simp [List.append_assoc]
      rw [hre, headerLines_multi tNow tDate rnd subject fromA parts _ _ _ hwf
        hctcr htbcr]
      constructor
      · intro hmem
        rcases List.mem_append.mp hmem with hmem | hmem
        · exact hiff.mp hmem
        · exact absurd hmem (target_notin_tail_multi _ _)
      · intro hcond
        exact List.mem_append.mpr (Or.inl (hiff.mpr hcond))

/-- Parts for the C5 witness: as `demoPartsC5`, with the Bcc recipient's
name and address replaced. -/
def demoPartsC5w : List Part :=
  [Part.rcpt { err := none, kind := str "cc", name := [], address := str "c@y.com" },
   Part.rcpt { err := none, kind := str "bcc", name := str "X", address := str "e@z.org" },
   Part.body (BodyPart.mk none [] (str "text/plain") (str "hi") [] false false [])]

/-- Witness for C5: replacing the Bcc identity leaves the emitted bytes
unchanged, and the default To line appears for this To-less Bcc-carrying
message. -/
theorem C5_bcc_hidden_witness :
    ∃ out rl rl', message (str "T") (str "D") 0 (str "B") (str "s")
        { name := [], address := str "a@x.com" } demoPartsC5 = .ok (out, rl) ∧
      message (str "T") (str "D") 0 (str "B") (str "s")
        { name := [], address := str "a@x.com" } demoPartsC5w = .ok (out, rl') ∧
      ((str "To: undisclosed-recipients:;" ∈ headerLines out) ↔
        (toLof demoPartsC5 = [] ∧ bccLof demoPartsC5 ≠ [])) :=
  C5_bcc_hidden (str "T") (str "D") 0 (str "B") (str "s")
    { name := [], address := str "a@x.com" } demoPartsC5 demoPartsC5w
    (List.Forall₂.cons (partRel.rcpt ⟨rfl, rfl, Or.inr rfl⟩)
      (List.Forall₂.cons (partRel.rcpt ⟨rfl, rfl, Or.inl rfl⟩)
        (List.Forall₂.cons (partRel.body _) List.Forall₂.nil)))
    (by decide) (by decide)
    (fun h => absurd (congrArg List.length h) (by decide))
    (by decide) (by decide) (by decide) (by decide)
    (Or.inl ⟨by decide, by decide, by decide⟩)

end Blackmail
